import Mathlib

/-!
# Verification of the image-to-scad depth-to-geometry pipeline

Shallow embedding of the core pipeline of the `image-to-scad` repository:

* `src/image_to_scad/config.py` — `ConversionConfig` (validated construction)
  and `HeightData`;
* `src/image_to_scad/pipeline/depth_analyzer.py` — `DepthAnalyzer`:
  validation, detail-level resampling, inversion, smoothing and
  normalisation of a raw depth grid into a physical height field;
* the Surface Mesh Builder (`pipeline/scad_generator.py`), which is not
  present in the source tree (only its unit tests and callers are) and is
  therefore modelled from the specification.

Numpy `float32` arithmetic is embedded as exact rational arithmetic (`ℚ`);
numpy arrays are embedded as a shape together with a row-major list of
values.  The external OpenCV collaborators `cv2.resize` and
`cv2.GaussianBlur` are not code of this repository; the pipeline is
parametrised over them (record `Externals`), and theorems that depend on
their behaviour assume only their documented shape contract.
-/

namespace ImageToScad

/-- A numpy `ndarray` of scalars: a shape (list of dimension sizes) and the
row-major flattened data.  `ndim` and `size` mirror the numpy attributes
used by `DepthAnalyzer._validate_depth_map`. -/
structure NDArray where
  shape : List Nat
  data : List ℚ
deriving DecidableEq

/-- numpy `ndarray.ndim`: number of dimensions. -/
def NDArray.ndim (a : NDArray) : Nat := a.shape.length

/-- numpy `ndarray.size`: total number of elements (product of the shape). -/
def NDArray.size (a : NDArray) : Nat := a.shape.prod

/-- A 2-dimensional scalar grid (`rows × cols`, row-major data), the form in
which depth maps and height fields flow through the pipeline. -/
structure Grid where
  rows : Nat
  cols : Nat
  data : List ℚ
deriving DecidableEq

/-- Total number of grid points (`ndarray.size` for a 2-D array). -/
def Grid.size (g : Grid) : Nat := g.rows * g.cols

/-- View a 2-D `NDArray` as a `Grid` (the shape of a validated depth map). -/
def NDArray.toGrid (a : NDArray) : Grid :=
  match a.shape with
  | [r, c] => ⟨r, c, a.data⟩
  | _ => ⟨0, 0, []⟩

/-- numpy `.min()` on a non-empty array (left fold of `min` over the data;
`0` on the empty list, which numpy would reject). -/
def listMin : List ℚ → ℚ
  | [] => 0
  | x :: xs => xs.foldl min x

/-- numpy `.max()` on a non-empty array. -/
def listMax : List ℚ → ℚ
  | [] => 0
  | x :: xs => xs.foldl max x

/-- `ConversionConfig` (src/image_to_scad/config.py): user-configurable
conversion parameters, with the Python defaults. -/
structure ConversionConfig where
  base_thickness : ℚ := 2
  max_height : ℚ := 15
  model_width : ℚ := 100
  detail_level : ℚ := 1
  smoothing : Bool := true
  invert_depth : Bool := false
  output_style : String := "relief"
deriving DecidableEq

/-- `ConversionConfig.__post_init__`: validation run by the dataclass
machinery at construction time.  A `ValueError` is modelled as `.error`
carrying the message; a successfully constructed object as `.ok`. -/
def ConversionConfig.post_init (c : ConversionConfig) : Except String ConversionConfig :=
  if c.base_thickness ≤ 0 then .error "base_thickness must be positive"
  else if c.max_height ≤ 0 then .error "max_height must be positive"
  else if c.model_width ≤ 0 then .error "model_width must be positive"
  else if ¬ (1/2 ≤ c.detail_level ∧ c.detail_level ≤ 2) then
    .error "detail_level must be between 0.5 and 2.0"
  else if c.output_style ≠ "relief" then .error "Unsupported output_style"
  else .ok c

/-- Constructing a `ConversionConfig`: the dataclass constructor immediately
followed by `__post_init__`, so an invalid combination never yields an
object. -/
def ConversionConfig.make (base_thickness max_height model_width detail_level : ℚ)
    (smoothing invert_depth : Bool) (output_style : String) :
    Except String ConversionConfig :=
  ConversionConfig.post_init
    { base_thickness := base_thickness, max_height := max_height,
      model_width := model_width, detail_level := detail_level,
      smoothing := smoothing, invert_depth := invert_depth,
      output_style := output_style }

/-- The allowed-range conditions of `ConversionConfig.__post_init__`, as a
proposition: exactly the configurations that construction accepts. -/
def ConversionConfig.Valid (c : ConversionConfig) : Prop :=
  0 < c.base_thickness ∧ 0 < c.max_height ∧ 0 < c.model_width ∧
    1/2 ≤ c.detail_level ∧ c.detail_level ≤ 2 ∧ c.output_style = "relief"

instance (c : ConversionConfig) : Decidable c.Valid := by
  unfold ConversionConfig.Valid
  infer_instance

/-- `HeightData` (src/image_to_scad/config.py): processed height grid plus
physical dimensions in millimetres.  `resolution` is computed from the
heights array by `__post_init__`. -/
structure HeightData where
  heights : Grid
  width_mm : ℚ
  height_mm : ℚ
deriving DecidableEq

/-- `HeightData.resolution`: `(rows, cols)` of the heights array. -/
def HeightData.resolution (h : HeightData) : Nat × Nat :=
  (h.heights.rows, h.heights.cols)

/-- The external OpenCV collaborators used by `DepthAnalyzer`.  Their
implementations are outside this repository; theorems assume at most their
shape contracts. -/
structure Externals where
  /-- `cv2.resize(src, (new_cols, new_rows), interpolation=INTER_CUBIC)`:
  the arguments here are `(grid, new_rows, new_cols)`. -/
  resize : Grid → Nat → Nat → Grid
  /-- `cv2.GaussianBlur(src, (k, k), 0)`: the arguments are `(grid, k)`. -/
  gaussianBlur : Grid → Nat → Grid

namespace DepthAnalyzer

/-- `DepthAnalyzer._validate_depth_map`: rejects non-2-D and empty arrays
with a `ValueError` (the `isinstance` check is subsumed by typing). -/
def validate_depth_map (depth_map : NDArray) : Except String Unit :=
  if depth_map.ndim ≠ 2 then .error "depth_map must be 2D"
  else if depth_map.size = 0 then .error "depth_map is empty"
  else .ok ()

/-- The `max(32, min(2048, n))` clamp applied per axis by
`DepthAnalyzer._apply_detail_level`. -/
def clamp_dim (n : Nat) : Nat := max 32 (min 2048 n)

/-- `DepthAnalyzer._apply_detail_level`: resize the grid by the detail
multiplier, clamping each target dimension to `[32, 2048]`; a no-op when
`detail_level == 1.0` or when the clamped target equals the source size.
Python's `int()` on a non-negative float is the floor. -/
def apply_detail_level (resize : Grid → Nat → Nat → Grid)
    (heights : Grid) (detail_level : ℚ) : Grid :=
  if detail_level = 1 then heights
  else
    let new_rows := clamp_dim (Int.toNat ⌊(heights.rows : ℚ) * detail_level⌋)
    let new_cols := clamp_dim (Int.toNat ⌊(heights.cols : ℚ) * detail_level⌋)
    if (new_rows, new_cols) = (heights.rows, heights.cols) then heights
    else resize heights new_rows new_cols

/-- `DepthAnalyzer._invert`: `heights.max() - heights + heights.min()`
(numpy broadcasting maps every element). -/
def invert (heights : Grid) : Grid :=
  { heights with
    data := heights.data.map (fun v => listMax heights.data - v + listMin heights.data) }

/-- `DepthAnalyzer._smooth`: make the kernel size odd, then call
`cv2.GaussianBlur` (external). -/
def smooth (gaussianBlur : Grid → Nat → Grid) (heights : Grid)
    (kernel_size : Nat) : Grid :=
  gaussianBlur heights (if kernel_size % 2 = 1 then kernel_size else kernel_size + 1)

/-- `DepthAnalyzer._normalize_to_range`: linearly map
`[heights.min(), heights.max()]` onto `[min_height, max_height]`; when the
span is below `1e-6` return `np.full_like(heights, min_height)` instead. -/
def normalize_to_range (heights : Grid) (min_height max_height : ℚ) : Grid :=
  let h_min := listMin heights.data
  let h_max := listMax heights.data
  if h_max - h_min < 1/1000000 then
    { heights with data := heights.data.map (fun _ => min_height) }
  else
    { heights with
      data := heights.data.map (fun v =>
        (v - h_min) / (h_max - h_min) * (max_height - min_height) + min_height) }

/-- `DepthAnalyzer.analyze`: validate, copy, then apply detail level,
optional inversion, optional smoothing and normalisation in the source's
order, and attach the physical dimensions
(`height_mm = model_width * rows / cols`). -/
def analyze (ext : Externals) (depth_map : NDArray) (config : ConversionConfig) :
    Except String HeightData :=
  match validate_depth_map depth_map with
  | .error msg => .error msg
  | .ok _ =>
    let heights0 := depth_map.toGrid
    let heights1 := apply_detail_level ext.resize heights0 config.detail_level
    let heights2 := if config.invert_depth then invert heights1 else heights1
    let heights3 := if config.smoothing then smooth ext.gaussianBlur heights2 5 else heights2
    let heights4 := normalize_to_range heights3 config.base_thickness
      (config.base_thickness + config.max_height)
    let width_mm := config.model_width
    let height_mm := width_mm * ((heights4.rows : ℚ) / (heights4.cols : ℚ))
    .ok { heights := heights4, width_mm := width_mm, height_mm := height_mm }

end DepthAnalyzer

/-! ## Elementary facts about `listMin` / `listMax` -/

lemma foldl_min_le_init (xs : List ℚ) (x : ℚ) : xs.foldl min x ≤ x := by
  induction xs generalizing x with
  | nil => simp
  | cons y ys ih =>
    calc (y :: ys).foldl min x = ys.foldl min (min x y) := rfl
    _ ≤ min x y := ih (min x y)
    _ ≤ x := min_le_left _ _

lemma foldl_min_le_mem (xs : List ℚ) (x v : ℚ) (hv : v ∈ xs) : xs.foldl min x ≤ v := by
  induction xs generalizing x with
  | nil => cases hv
  | cons y ys ih =>
    rcases List.mem_cons.mp hv with h | h
    · subst h
      calc ys.foldl min (min x v) ≤ min x v := foldl_min_le_init _ _
      _ ≤ v := min_le_right _ _
    · exact ih (min x y) h

lemma init_le_foldl_max (xs : List ℚ) (x : ℚ) : x ≤ xs.foldl max x := by
  induction xs generalizing x with
  | nil => simp
  | cons y ys ih =>
    calc x ≤ max x y := le_max_left _ _
    _ ≤ ys.foldl max (max x y) := ih (max x y)

lemma mem_le_foldl_max (xs : List ℚ) (x v : ℚ) (hv : v ∈ xs) : v ≤ xs.foldl max x := by
  induction xs generalizing x with
  | nil => cases hv
  | cons y ys ih =>
    rcases List.mem_cons.mp hv with h | h
    · subst h
      calc v ≤ max x v := le_max_right _ _
      _ ≤ ys.foldl max (max x v) := init_le_foldl_max _ _
    · exact ih (max x y) h

lemma listMin_le {l : List ℚ} {v : ℚ} (hv : v ∈ l) : listMin l ≤ v := by
  cases l with
  | nil => cases hv
  | cons x xs =>
    rcases List.mem_cons.mp hv with h | h
    · subst h; exact foldl_min_le_init _ _
    · exact foldl_min_le_mem _ _ _ h

lemma le_listMax {l : List ℚ} {v : ℚ} (hv : v ∈ l) : v ≤ listMax l := by
  cases l with
  | nil => cases hv
  | cons x xs =>
    rcases List.mem_cons.mp hv with h | h
    · subst h; exact init_le_foldl_max _ _
    · exact mem_le_foldl_max _ _ _ h

lemma foldl_min_mem (xs : List ℚ) (x : ℚ) : xs.foldl min x ∈ x :: xs := by
  induction xs generalizing x with
  | nil => simp
  | cons y ys ih =>
    have h := ih (min x y)
    rw [List.foldl_cons]
    rcases List.mem_cons.mp h with h' | h'
    · rcases min_choice x y with hc | hc
      · rw [h', hc]; exact List.mem_cons_self _ _
      · rw [h', hc]; exact List.mem_cons_of_mem _ (List.mem_cons_self _ _)
    · exact List.mem_cons_of_mem _ (List.mem_cons_of_mem _ h')

lemma foldl_max_mem (xs : List ℚ) (x : ℚ) : xs.foldl max x ∈ x :: xs := by
  induction xs generalizing x with
  | nil => simp
  | cons y ys ih =>
    have h := ih (max x y)
    rw [List.foldl_cons]
    rcases List.mem_cons.mp h with h' | h'
    · rcases max_choice x y with hc | hc
      · rw [h', hc]; exact List.mem_cons_self _ _
      · rw [h', hc]; exact List.mem_cons_of_mem _ (List.mem_cons_self _ _)
    · exact List.mem_cons_of_mem _ (List.mem_cons_of_mem _ h')

lemma listMin_mem {l : List ℚ} (h : l ≠ []) : listMin l ∈ l := by
  cases l with
  | nil => exact absurd rfl h
  | cons x xs => exact foldl_min_mem xs x

lemma listMax_mem {l : List ℚ} (h : l ≠ []) : listMax l ∈ l := by
  cases l with
  | nil => exact absurd rfl h
  | cons x xs => exact foldl_max_mem xs x

lemma listMin_le_listMax {l : List ℚ} (h : l ≠ []) : listMin l ≤ listMax l :=
  le_trans (listMin_le (listMin_mem h)) (le_listMax (listMin_mem h))

/-- Folding `min` through a map commutes with a min-preserving function. -/
lemma foldl_min_map (f : ℚ → ℚ) (hf : ∀ x y, f (min x y) = min (f x) (f y))
    (xs : List ℚ) (x : ℚ) : (xs.map f).foldl min (f x) = f (xs.foldl min x) := by
  induction xs generalizing x with
  | nil => simp
  | cons y ys ih => simpa [← hf] using ih (min x y)

lemma foldl_max_map (f : ℚ → ℚ) (hf : ∀ x y, f (max x y) = max (f x) (f y))
    (xs : List ℚ) (x : ℚ) : (xs.map f).foldl max (f x) = f (xs.foldl max x) := by
  induction xs generalizing x with
  | nil => simp
  | cons y ys ih => simpa [← hf] using ih (max x y)

/-- Folding `max` through an order-reversing map turns `min` into `max`. -/
lemma foldl_max_map_anti (f : ℚ → ℚ) (hf : ∀ x y, f (min x y) = max (f x) (f y))
    (xs : List ℚ) (x : ℚ) : (xs.map f).foldl max (f x) = f (xs.foldl min x) := by
  induction xs generalizing x with
  | nil => simp
  | cons y ys ih => simpa [← hf] using ih (min x y)

lemma foldl_min_map_anti (f : ℚ → ℚ) (hf : ∀ x y, f (max x y) = min (f x) (f y))
    (xs : List ℚ) (x : ℚ) : (xs.map f).foldl min (f x) = f (xs.foldl max x) := by
  induction xs generalizing x with
  | nil => simp
  | cons y ys ih => simpa [← hf] using ih (max x y)

lemma listMin_map_mono (f : ℚ → ℚ) (hf : ∀ x y, f (min x y) = min (f x) (f y))
    {l : List ℚ} (h : l ≠ []) : listMin (l.map f) = f (listMin l) := by
  cases l with
  | nil => exact absurd rfl h
  | cons x xs => exact foldl_min_map f hf xs x

lemma listMax_map_mono (f : ℚ → ℚ) (hf : ∀ x y, f (max x y) = max (f x) (f y))
    {l : List ℚ} (h : l ≠ []) : listMax (l.map f) = f (listMax l) := by
  cases l with
  | nil => exact absurd rfl h
  | cons x xs => exact foldl_max_map f hf xs x

lemma listMax_map_anti (f : ℚ → ℚ) (hf : ∀ x y, f (min x y) = max (f x) (f y))
    {l : List ℚ} (h : l ≠ []) : listMax (l.map f) = f (listMin l) := by
  cases l with
  | nil => exact absurd rfl h
  | cons x xs => exact foldl_max_map_anti f hf xs x

lemma listMin_map_anti (f : ℚ → ℚ) (hf : ∀ x y, f (max x y) = min (f x) (f y))
    {l : List ℚ} (h : l ≠ []) : listMin (l.map f) = f (listMax l) := by
  cases l with
  | nil => exact absurd rfl h
  | cons x xs => exact foldl_min_map_anti f hf xs x

lemma getD_map_lt (f : ℚ → ℚ) (l : List ℚ) (i : Nat) (h : i < l.length) :
    (l.map f).getD i 0 = f (l.getD i 0) := by
  induction l generalizing i with
  | nil => simp at h
  | cons x xs ih =>
    cases i with
    | zero => simp [List.getD]
    | succ j =>
      have hj : j < xs.length := by simpa using h
      simpa [List.getD] using ih j hj

lemma getD_mem {l : List ℚ} {i : Nat} (h : i < l.length) : l.getD i 0 ∈ l := by
  induction l generalizing i with
  | nil => simp at h
  | cons x xs ih =>
    cases i with
    | zero => simp [List.getD]
    | succ j =>
      have hj : j < xs.length := by simpa using h
      simpa [List.getD] using Or.inr (ih hj)

namespace DepthAnalyzer

/-- A non-degenerate span at the normalise step forces a non-empty grid. -/
lemma span_ne_empty {g : Grid} (hspan : ¬ listMax g.data - listMin g.data < 1/1000000) :
    g.data ≠ [] := by
  intro h
  exact hspan (by simp [h, listMin, listMax])

/-- The affine rescaling used in the non-degenerate branch of
`_normalize_to_range` is monotone when the span is positive and the target
range is ordered. -/
lemma normalize_affine_mono (m s D c : ℚ) (hs : 0 < s) (hD : 0 ≤ D) {x y : ℚ}
    (h : x ≤ y) : (x - m) / s * D + c ≤ (y - m) / s * D + c := by
  have h1 : (x - m) / s ≤ (y - m) / s :=
    (div_le_div_iff_of_pos_right hs).mpr (by linarith)
  have h2 : (x - m) / s * D ≤ (y - m) / s * D := mul_le_mul_of_nonneg_right h1 hD
  linarith

/-- Every value produced by `_normalize_to_range` lies in
`[min_height, max_height]` when `min_height ≤ max_height`. -/
lemma normalize_to_range_bounds (g : Grid) (mn mx : ℚ) (hmnmx : mn ≤ mx) :
    ∀ v ∈ (normalize_to_range g mn mx).data, mn ≤ v ∧ v ≤ mx := by
  intro v hv
  unfold normalize_to_range at hv
  by_cases hflat : listMax g.data - listMin g.data < 1/1000000
  · rw [if_pos hflat] at hv
    simp only [List.mem_map] at hv
    obtain ⟨w, -, hw⟩ := hv
    exact ⟨le_of_eq hw, hw ▸ hmnmx⟩
  · rw [if_neg hflat] at hv
    simp only [List.mem_map] at hv
    obtain ⟨w, hwmem, hw⟩ := hv
    have hs : 0 < listMax g.data - listMin g.data := by
      have := not_lt.mp hflat
      linarith [lt_of_lt_of_le (by norm_num : (0:ℚ) < 1/1000000) this]
    have hwlo : listMin g.data ≤ w := listMin_le hwmem
    have hwhi : w ≤ listMax g.data := le_listMax hwmem
    have ht0 : 0 ≤ (w - listMin g.data) / (listMax g.data - listMin g.data) :=
      div_nonneg (by linarith) (le_of_lt hs)
    have ht1 : (w - listMin g.data) / (listMax g.data - listMin g.data) ≤ 1 :=
      (div_le_one hs).mpr (by linarith)
    constructor
    · have : 0 ≤ (w - listMin g.data) / (listMax g.data - listMin g.data) * (mx - mn) :=
        mul_nonneg ht0 (by linarith)
      linarith [hw]
    · have : (w - listMin g.data) / (listMax g.data - listMin g.data) * (mx - mn) ≤ mx - mn :=
        mul_le_of_le_one_left (by linarith) ht1
      linarith [hw]

/-- In the non-degenerate branch, `_normalize_to_range` maps the grid minimum
exactly to `min_height` and the grid maximum exactly to `max_height`. -/
lemma normalize_to_range_min_max (g : Grid) (mn mx : ℚ) (hmnmx : mn ≤ mx)
    (hspan : ¬ listMax g.data - listMin g.data < 1/1000000) :
    listMin (normalize_to_range g mn mx).data = mn ∧
      listMax (normalize_to_range g mn mx).data = mx := by
  have hne : g.data ≠ [] := span_ne_empty hspan
  have hs : 0 < listMax g.data - listMin g.data := by
    have := not_lt.mp hspan
    linarith [lt_of_lt_of_le (by norm_num : (0:ℚ) < 1/1000000) this]
  set m := listMin g.data with hm
  set M := listMax g.data with hM
  set f : ℚ → ℚ := fun v => (v - m) / (M - m) * (mx - mn) + mn with hf
  have hmono : ∀ x y : ℚ, x ≤ y → f x ≤ f y := fun x y h =>
    normalize_affine_mono m (M - m) (mx - mn) mn hs (by linarith) h
  have hfmin : ∀ x y, f (min x y) = min (f x) (f y) := by
    intro x y
    rcases le_total x y with h | h
    · rw [min_eq_left h, min_eq_left (hmono _ _ h)]
    · rw [min_eq_right h, min_eq_right (hmono _ _ h)]
  have hfmax : ∀ x y, f (max x y) = max (f x) (f y) := by
    intro x y
    rcases le_total x y with h | h
    · rw [max_eq_right h, max_eq_right (hmono _ _ h)]
    · rw [max_eq_left h, max_eq_left (hmono _ _ h)]
  have hdata : (normalize_to_range g mn mx).data = g.data.map f := by
    unfold normalize_to_range
    rw [if_neg hspan]
  constructor
  · rw [hdata, listMin_map_mono f hfmin hne, hf]
    simp
  · have hfM : f M = (M - m) / (M - m) * (mx - mn) + mn := rfl
    rw [hdata, listMax_map_mono f hfmax hne, hfM, div_self (ne_of_gt hs)]
    ring

/-- `_normalize_to_range` preserves the grid shape. -/
lemma normalize_to_range_shape (g : Grid) (mn mx : ℚ) :
    (normalize_to_range g mn mx).rows = g.rows ∧
      (normalize_to_range g mn mx).cols = g.cols := by
  simp only [normalize_to_range]
  split_ifs <;> exact ⟨rfl, rfl⟩

end DepthAnalyzer

/-! ## Concrete inputs used by the witness theorems -/

/-- A stand-in implementation of the external `cv2` collaborators that
satisfies their shape contracts: `resize` returns a grid of the requested
shape, `GaussianBlur` returns its input. -/
def extStub : Externals where
  resize := fun _ r c => ⟨r, c, List.replicate (r * c) 0⟩
  gaussianBlur := fun g _ => g

/-- The default configuration (`ConversionConfig()` in Python). -/
def cfg0 : ConversionConfig := {}

/-- A small non-flat 2×2 depth map. -/
def arr2d : NDArray := ⟨[2, 2], [0, 1, 2, 3]⟩

/-- A 1-D array (rejected by validation). -/
def arr1d : NDArray := ⟨[3], [1, 2, 3]⟩

/-- A flat 2×2 grid. -/
def gflat : Grid := ⟨2, 2, [5, 5, 5, 5]⟩

/-- A small non-constant 2×2 grid. -/
def gvar : Grid := ⟨2, 2, [1, 3, 2, 0]⟩

/-- C4: for every valid `ConversionConfig`, any grid whose value span at the
normalise step is below `1e-6` is mapped by `_normalize_to_range` to a grid
of the same shape whose every value is exactly `base_thickness` (the
degenerate branch; no division by the near-zero span). -/
theorem C4_flat_grid_normalizes_to_base (cfg : ConversionConfig) (g : Grid)
    (_hvalid : cfg.Valid)
    (hflat : listMax g.data - listMin g.data < 1/1000000) :
    (DepthAnalyzer.normalize_to_range g cfg.base_thickness
        (cfg.base_thickness + cfg.max_height)).data =
      List.replicate g.data.length cfg.base_thickness ∧
    (DepthAnalyzer.normalize_to_range g cfg.base_thickness
        (cfg.base_thickness + cfg.max_height)).rows = g.rows ∧
    (DepthAnalyzer.normalize_to_range g cfg.base_thickness
        (cfg.base_thickness + cfg.max_height)).cols = g.cols := by
  unfold DepthAnalyzer.normalize_to_range
  rw [if_pos hflat]
  refine ⟨?_, rfl, rfl⟩
  simp

/-- Witness for C4 at the default configuration and a flat 2×2 grid. -/
theorem C4_witness :
    (DepthAnalyzer.normalize_to_range gflat cfg0.base_thickness
        (cfg0.base_thickness + cfg0.max_height)).data =
      List.replicate gflat.data.length cfg0.base_thickness ∧
    (DepthAnalyzer.normalize_to_range gflat cfg0.base_thickness
        (cfg0.base_thickness + cfg0.max_height)).rows = gflat.rows ∧
    (DepthAnalyzer.normalize_to_range gflat cfg0.base_thickness
        (cfg0.base_thickness + cfg0.max_height)).cols = gflat.cols :=
  C4_flat_grid_normalizes_to_base cfg0 gflat
    (by unfold ConversionConfig.Valid cfg0; norm_num)
    (by norm_num [gflat, listMax, listMin])

/-- C7: `_invert` maps each value `v` to `max(grid) - v + min(grid)`;
consequently, on a non-empty grid it preserves the shape, keeps the overall
minimum and maximum (hence the range `max - min`) unchanged, sends any
position holding the old maximum to the new minimum and any position
holding the old minimum to the new maximum, and reverses the depth
ordering. -/
theorem C7_invert_reflection (g : Grid) (hne : g.data ≠ []) :
    (DepthAnalyzer.invert g).rows = g.rows ∧
    (DepthAnalyzer.invert g).cols = g.cols ∧
    (∀ i, i < g.data.length →
      (DepthAnalyzer.invert g).data.getD i 0 =
        listMax g.data - g.data.getD i 0 + listMin g.data) ∧
    listMin (DepthAnalyzer.invert g).data = listMin g.data ∧
    listMax (DepthAnalyzer.invert g).data = listMax g.data ∧
    listMax (DepthAnalyzer.invert g).data - listMin (DepthAnalyzer.invert g).data =
      listMax g.data - listMin g.data ∧
    (∀ i, i < g.data.length → g.data.getD i 0 = listMax g.data →
      (DepthAnalyzer.invert g).data.getD i 0 = listMin (DepthAnalyzer.invert g).data) ∧
    (∀ i, i < g.data.length → g.data.getD i 0 = listMin g.data →
      (DepthAnalyzer.invert g).data.getD i 0 = listMax (DepthAnalyzer.invert g).data) ∧
    (∀ i j, i < g.data.length → j < g.data.length →
      g.data.getD i 0 ≤ g.data.getD j 0 →
      (DepthAnalyzer.invert g).data.getD j 0 ≤ (DepthAnalyzer.invert g).data.getD i 0) := by
  set M := listMax g.data with hM
  set m := listMin g.data with hm
  set f : ℚ → ℚ := fun v => M - v + m with hf
  have hidata : (DepthAnalyzer.invert g).data = g.data.map f := rfl
  have hfminmax : ∀ x y, f (min x y) = max (f x) (f y) := by
    intro x y
    rcases le_total x y with h | h
    · rw [min_eq_left h, max_eq_left (by simp [hf]; linarith)]
    · rw [min_eq_right h, max_eq_right (by simp [hf]; linarith)]
  have hfmaxmin : ∀ x y, f (max x y) = min (f x) (f y) := by
    intro x y
    rcases le_total x y with h | h
    · rw [max_eq_right h, min_eq_right (by simp [hf]; linarith)]
    · rw [max_eq_left h, min_eq_left (by simp [hf]; linarith)]
  have hmin : listMin (DepthAnalyzer.invert g).data = m := by
    rw [hidata, listMin_map_anti f hfmaxmin hne, hf]
    simp
  have hmax : listMax (DepthAnalyzer.invert g).data = M := by
    rw [hidata, listMax_map_anti f hfminmax hne, hf]
    simp
  have hget : ∀ i, i < g.data.length →
      (DepthAnalyzer.invert g).data.getD i 0 = M - g.data.getD i 0 + m := by
    intro i hi
    rw [hidata, getD_map_lt f g.data i hi]
  refine ⟨rfl, rfl, hget, hmin, hmax, by rw [hmin, hmax], ?_, ?_, ?_⟩
  · intro i hi hv
    rw [hget i hi, hv, hmin]
    ring
  · intro i hi hv
    rw [hget i hi, hv, hmax]
    ring
  · intro i j hi hj hij
    rw [hget i hi, hget j hj]
    linarith

/-- Witness for C7 at a concrete 2×2 grid. -/
theorem C7_witness :
    (DepthAnalyzer.invert gvar).rows = gvar.rows ∧
    (DepthAnalyzer.invert gvar).cols = gvar.cols ∧
    (∀ i, i < gvar.data.length →
      (DepthAnalyzer.invert gvar).data.getD i 0 =
        listMax gvar.data - gvar.data.getD i 0 + listMin gvar.data) ∧
    listMin (DepthAnalyzer.invert gvar).data = listMin gvar.data ∧
    listMax (DepthAnalyzer.invert gvar).data = listMax gvar.data ∧
    listMax (DepthAnalyzer.invert gvar).data - listMin (DepthAnalyzer.invert gvar).data =
      listMax gvar.data - listMin gvar.data ∧
    (∀ i, i < gvar.data.length → gvar.data.getD i 0 = listMax gvar.data →
      (DepthAnalyzer.invert gvar).data.getD i 0 = listMin (DepthAnalyzer.invert gvar).data) ∧
    (∀ i, i < gvar.data.length → gvar.data.getD i 0 = listMin gvar.data →
      (DepthAnalyzer.invert gvar).data.getD i 0 = listMax (DepthAnalyzer.invert gvar).data) ∧
    (∀ i j, i < gvar.data.length → j < gvar.data.length →
      gvar.data.getD i 0 ≤ gvar.data.getD j 0 →
      (DepthAnalyzer.invert gvar).data.getD j 0 ≤ (DepthAnalyzer.invert gvar).data.getD i 0) :=
  C7_invert_reflection gvar (by decide)

/-! ## Configuration construction (C6) -/

lemma make_ok_iff (b m w d : ℚ) (sm inv : Bool) (st : String) :
    (∃ c, ConversionConfig.make b m w d sm inv st = .ok c) ↔
      (0 < b ∧ 0 < m ∧ 0 < w ∧ 1/2 ≤ d ∧ d ≤ 2 ∧ st = "relief") := by
  constructor
  · rintro ⟨c, hc⟩
    unfold ConversionConfig.make ConversionConfig.post_init at hc
    split_ifs at hc with h1 h2 h3 h4 h5
    exact ⟨not_le.mp h1, not_le.mp h2, not_le.mp h3, h4.1, h4.2, not_ne_iff.mp h5⟩
  · rintro ⟨hb, hm, hw, hd1, hd2, hst⟩
    unfold ConversionConfig.make ConversionConfig.post_init
    rw [if_neg (not_le.mpr hb), if_neg (not_le.mpr hm), if_neg (not_le.mpr hw),
      if_neg (not_not_intro ⟨hd1, hd2⟩), if_neg (not_ne_iff.mpr hst)]
    exact ⟨_, rfl⟩

lemma make_ok_fields (b m w d : ℚ) (sm inv : Bool) (st : String)
    (c : ConversionConfig) (hc : ConversionConfig.make b m w d sm inv st = .ok c) :
    c = { base_thickness := b, max_height := m, model_width := w,
          detail_level := d, smoothing := sm, invert_depth := inv,
          output_style := st } ∧ c.Valid := by
  have hex := (make_ok_iff b m w d sm inv st).mp ⟨c, hc⟩
  unfold ConversionConfig.make ConversionConfig.post_init at hc
  split_ifs at hc
  rw [Except.ok.injEq] at hc
  exact ⟨hc.symm, hc ▸ ⟨hex.1, hex.2.1, hex.2.2.1, hex.2.2.2.1, hex.2.2.2.2.1,
    hex.2.2.2.2.2⟩⟩

/-- C6: constructing a `ConversionConfig` succeeds exactly when every
parameter is in its allowed range (`base_thickness > 0`, `max_height > 0`,
`model_width > 0`, `detail_level ∈ [0.5, 2.0]`, `output_style = "relief"`);
a successful construction yields exactly the requested field values, which
satisfy the validity predicate (so an invalid combination never yields a
usable object), and in particular `detail_level = 2.5` is rejected. -/
theorem C6_config_validation :
    (∀ (b m w d : ℚ) (sm inv : Bool) (st : String),
      (∃ c, ConversionConfig.make b m w d sm inv st = .ok c) ↔
        (0 < b ∧ 0 < m ∧ 0 < w ∧ 1/2 ≤ d ∧ d ≤ 2 ∧ st = "relief")) ∧
    (∀ (b m w d : ℚ) (sm inv : Bool) (st : String) (c : ConversionConfig),
      ConversionConfig.make b m w d sm inv st = .ok c →
        c = { base_thickness := b, max_height := m, model_width := w,
              detail_level := d, smoothing := sm, invert_depth := inv,
              output_style := st } ∧ c.Valid) ∧
    (∀ c : ConversionConfig,
      ConversionConfig.make 2 15 100 (5/2) true false "relief" ≠ .ok c) := by
  refine ⟨make_ok_iff, make_ok_fields, fun c hc => ?_⟩
  have h := (make_ok_iff 2 15 100 (5/2) true false "relief").mp ⟨c, hc⟩
  have : (5/2 : ℚ) ≤ 2 := h.2.2.2.2.1
  norm_num at this

/-- Witness for C6: the out-of-range `detail_level = 2.5` construction is
rejected (instantiating the third conjunct at a concrete configuration). -/
theorem C6_witness :
    ConversionConfig.make 2 15 100 (5/2) true false "relief" ≠
      .ok { base_thickness := 2, max_height := 15, model_width := 100,
            detail_level := 5/2, smoothing := true, invert_depth := false,
            output_style := "relief" } :=
  C6_config_validation.2.2 _

/-! ## Input validation in `analyze` (C5) -/

lemma validate_ok_iff (a : NDArray) :
    DepthAnalyzer.validate_depth_map a = .ok () ↔ (a.ndim = 2 ∧ a.size ≠ 0) := by
  unfold DepthAnalyzer.validate_depth_map
  split_ifs with h1 h2
  · constructor
    · intro hc
      simp at hc
    · rintro ⟨h, -⟩
      exact absurd h h1
  · constructor
    · intro hc
      simp at hc
    · rintro ⟨-, h⟩
      exact absurd h2 h
  · exact ⟨fun _ => ⟨not_ne_iff.mp h1, h2⟩, fun _ => rfl⟩

/-- C5: `analyze` fails exactly when the raw array is not 2-D or is empty;
the failure is the validation error itself (raised at stage entry, before
any processing), and for every non-empty 2-D array no input error is
raised. -/
theorem C5_analyze_input_errors (ext : Externals) (config : ConversionConfig)
    (a : NDArray) :
    ((∃ hd, DepthAnalyzer.analyze ext a config = .ok hd) ↔
      (a.ndim = 2 ∧ a.size ≠ 0)) ∧
    (∀ msg, DepthAnalyzer.analyze ext a config = .error msg →
      DepthAnalyzer.validate_depth_map a = .error msg) ∧
    (a.ndim ≠ 2 ∨ a.size = 0 →
      DepthAnalyzer.analyze ext a config =
        .error (if a.ndim ≠ 2 then "depth_map must be 2D" else "depth_map is empty")) := by
  refine ⟨?_, ?_, ?_⟩
  · constructor
    · rintro ⟨hd, hok⟩
      unfold DepthAnalyzer.analyze at hok
      rcases hv : DepthAnalyzer.validate_depth_map a with msg | u
      · rw [hv] at hok
        exact Except.noConfusion hok
      · cases u
        exact (validate_ok_iff a).mp hv
    · intro h
      have hv : DepthAnalyzer.validate_depth_map a = .ok () := (validate_ok_iff a).mpr h
      unfold DepthAnalyzer.analyze
      rw [hv]
      exact ⟨_, rfl⟩
  · intro msg herr
    unfold DepthAnalyzer.analyze at herr
    rcases hv : DepthAnalyzer.validate_depth_map a with msg' | u
    · rw [hv] at herr
      simpa using herr
    · rw [hv] at herr
      simp at herr
  · intro h
    have hv : DepthAnalyzer.validate_depth_map a =
        .error (if a.ndim ≠ 2 then "depth_map must be 2D" else "depth_map is empty") := by
      unfold DepthAnalyzer.validate_depth_map
      rcases h with h | h
      · rw [if_pos h, if_pos h]
      · by_cases h2 : a.ndim ≠ 2
        · rw [if_pos h2, if_pos h2]
        · rw [if_neg h2, if_pos h, if_neg h2]
    unfold DepthAnalyzer.analyze
    rw [hv]

/-- Witness for C5: a 1-D array is rejected with the validation message, and
the small 2×2 array is accepted. -/
theorem C5_witness :
    DepthAnalyzer.analyze extStub arr1d cfg0 =
      .error (if arr1d.ndim ≠ 2 then "depth_map must be 2D" else "depth_map is empty") :=
  (C5_analyze_input_errors extStub cfg0 arr1d).2.2 (by decide)

/-! ## The fixed stage order of `analyze` (C3) and the output range (C1) -/

/-- Stage 1 of `analyze`: detail-level resampling (a no-op when
`detail_level == 1.0`). -/
def resample_stage (resize : Grid → Nat → Nat → Grid) (detail_level : ℚ)
    (g : Grid) : Grid :=
  DepthAnalyzer.apply_detail_level resize g detail_level

/-- Stage 2 of `analyze`: inversion, only when `invert_depth` is set. -/
def invert_stage (invert_depth : Bool) (g : Grid) : Grid :=
  if invert_depth then DepthAnalyzer.invert g else g

/-- Stage 3 of `analyze`: Gaussian smoothing with kernel width 5, only when
`smoothing` is set. -/
def smooth_stage (gaussianBlur : Grid → Nat → Grid) (smoothing : Bool)
    (g : Grid) : Grid :=
  if smoothing then DepthAnalyzer.smooth gaussianBlur g 5 else g

/-- Stage 4 of `analyze`: normalisation onto
`[base_thickness, base_thickness + max_height]`. -/
def normalize_stage (base_thickness max_height : ℚ) (g : Grid) : Grid :=
  DepthAnalyzer.normalize_to_range g base_thickness (base_thickness + max_height)

/-- The grid entering the normalise step of `analyze`: the first three
stages composed in the source's order. -/
def normalize_entry (ext : Externals) (config : ConversionConfig) (a : NDArray) : Grid :=
  smooth_stage ext.gaussianBlur config.smoothing
    (invert_stage config.invert_depth
      (resample_stage ext.resize config.detail_level a.toGrid))

/-- The height grid computed by `analyze` on a valid input: the four stages
composed in the source's order. -/
def pipeline_grid (ext : Externals) (config : ConversionConfig) (a : NDArray) : Grid :=
  normalize_stage config.base_thickness config.max_height (normalize_entry ext config a)

/-- On a valid (2-D, non-empty) input, `analyze` returns exactly the
composition of the four stages plus the physical dimensions. -/
lemma analyze_ok (ext : Externals) (a : NDArray) (config : ConversionConfig)
    (h2 : a.ndim = 2) (hne : a.size ≠ 0) :
    DepthAnalyzer.analyze ext a config = .ok
      { heights := pipeline_grid ext config a,
        width_mm := config.model_width,
        height_mm := config.model_width *
          (((pipeline_grid ext config a).rows : ℚ) /
            ((pipeline_grid ext config a).cols : ℚ)) } := by
  have hv : DepthAnalyzer.validate_depth_map a = .ok () := (validate_ok_iff a).mpr ⟨h2, hne⟩
  unfold DepthAnalyzer.analyze
  rw [hv]
  rfl

/-- C3: on every valid configuration and non-empty 2-D grid, `analyze`
equals the composition — in this fixed order — of resample (stage 1),
inversion (stage 2, only if `invert_depth`), Gaussian smoothing with kernel
width 5 (stage 3, only if `smoothing`) and normalise-to-range (stage 4),
each stage consuming the previous stage's output. -/
theorem C3_analyze_is_staged_composition (ext : Externals) (a : NDArray)
    (config : ConversionConfig) (h2 : a.ndim = 2) (hne : a.size ≠ 0) :
    DepthAnalyzer.analyze ext a config = .ok
      { heights :=
          normalize_stage config.base_thickness config.max_height
            (smooth_stage ext.gaussianBlur config.smoothing
              (invert_stage config.invert_depth
                (resample_stage ext.resize config.detail_level a.toGrid))),
        width_mm := config.model_width,
        height_mm := config.model_width *
          (((pipeline_grid ext config a).rows : ℚ) /
            ((pipeline_grid ext config a).cols : ℚ)) } :=
  analyze_ok ext a config h2 hne

/-- Witness for C3 at the stub externals, the 2×2 array and the default
configuration. -/
theorem C3_witness :
    DepthAnalyzer.analyze extStub arr2d cfg0 = .ok
      { heights :=
          normalize_stage cfg0.base_thickness cfg0.max_height
            (smooth_stage extStub.gaussianBlur cfg0.smoothing
              (invert_stage cfg0.invert_depth
                (resample_stage extStub.resize cfg0.detail_level arr2d.toGrid))),
        width_mm := cfg0.model_width,
        height_mm := cfg0.model_width *
          (((pipeline_grid extStub cfg0 arr2d).rows : ℚ) /
            ((pipeline_grid extStub cfg0 arr2d).cols : ℚ)) } :=
  C3_analyze_is_staged_composition extStub arr2d cfg0 (by decide) (by decide)

/-- C1: on every valid configuration and non-empty 2-D input, every value of
the height grid returned by `analyze` lies in
`[base_thickness, base_thickness + max_height]`, and when the grid entering
the normalise step has span at least `1e-6` the output minimum is exactly
`base_thickness` and the output maximum exactly
`base_thickness + max_height`. -/
theorem C1_analyze_range (ext : Externals) (a : NDArray)
    (config : ConversionConfig) (hd : HeightData) (hvalid : config.Valid)
    (h2 : a.ndim = 2) (hne : a.size ≠ 0)
    (hok : DepthAnalyzer.analyze ext a config = .ok hd) :
    (∀ v ∈ hd.heights.data,
      config.base_thickness ≤ v ∧ v ≤ config.base_thickness + config.max_height) ∧
    (1/1000000 ≤ listMax (normalize_entry ext config a).data -
        listMin (normalize_entry ext config a).data →
      listMin hd.heights.data = config.base_thickness ∧
        listMax hd.heights.data = config.base_thickness + config.max_height) := by
  have hmh : 0 < config.max_height := hvalid.2.1
  have hle : config.base_thickness ≤ config.base_thickness + config.max_height := by
    linarith
  have hh : hd.heights = pipeline_grid ext config a := by
    rw [analyze_ok ext a config h2 hne] at hok
    rw [Except.ok.injEq] at hok
    rw [← hok]
  constructor
  · rw [hh]
    exact DepthAnalyzer.normalize_to_range_bounds (normalize_entry ext config a)
      config.base_thickness (config.base_thickness + config.max_height) hle
  · intro hspan
    rw [hh]
    exact DepthAnalyzer.normalize_to_range_min_max (normalize_entry ext config a)
      config.base_thickness (config.base_thickness + config.max_height) hle
      (not_lt.mpr hspan)

/-- The height data computed by `analyze` on `arr2d` with the default
configuration and the stub externals. -/
def hd0 : HeightData := ⟨⟨2, 2, [2, 7, 12, 17]⟩, 100, 100⟩

/-- Witness for C1 at the stub externals, the 2×2 array and the default
configuration. -/
theorem C1_witness :
    (∀ v ∈ hd0.heights.data,
      cfg0.base_thickness ≤ v ∧ v ≤ cfg0.base_thickness + cfg0.max_height) ∧
    (1/1000000 ≤ listMax (normalize_entry extStub cfg0 arr2d).data -
        listMin (normalize_entry extStub cfg0 arr2d).data →
      listMin hd0.heights.data = cfg0.base_thickness ∧
        listMax hd0.heights.data = cfg0.base_thickness + cfg0.max_height) :=
  C1_analyze_range extStub arr2d cfg0 hd0
    (by unfold ConversionConfig.Valid cfg0; norm_num)
    (by decide) (by decide)
    (by norm_num [DepthAnalyzer.analyze, DepthAnalyzer.validate_depth_map,
      NDArray.ndim, NDArray.size, arr2d, cfg0, hd0, extStub, NDArray.toGrid,
      DepthAnalyzer.apply_detail_level, DepthAnalyzer.smooth,
      DepthAnalyzer.invert, DepthAnalyzer.normalize_to_range,
      listMin, listMax])

/-! ## Detail-level resampling shape behaviour (C8, C10) -/

/-- The shape contract of `cv2.resize`: the returned array has exactly the
requested dimensions. -/
def ResizeShapeContract (resize : Grid → Nat → Nat → Grid) : Prop :=
  ∀ g r c, (resize g r c).rows = r ∧ (resize g r c).cols = c

lemma clamp_dim_bounds (n : Nat) :
    32 ≤ DepthAnalyzer.clamp_dim n ∧ DepthAnalyzer.clamp_dim n ≤ 2048 := by
  unfold DepthAnalyzer.clamp_dim
  exact ⟨le_max_left _ _, max_le (by norm_num) (min_le_left _ _)⟩

lemma clamp_dim_fixed_bounds {n : Nat} (h : DepthAnalyzer.clamp_dim n = n) :
    32 ≤ n ∧ n ≤ 2048 := h ▸ clamp_dim_bounds n

/-- `int(n * 2.0)` in Python, on a natural `n`, is `2 * n`. -/
lemma floor_nat_mul_two (n : Nat) : (⌊(n : ℚ) * 2⌋).toNat = 2 * n := by
  have h : ((n : ℚ) * 2) = ((2 * n : ℕ) : ℚ) := by push_cast; ring
  rw [h, Int.floor_natCast]
  exact Int.toNat_natCast _

/-- `int(n * 0.5)` in Python, on a natural `n`, is `n / 2` (floor
division). -/
lemma floor_nat_mul_half (n : Nat) : (⌊(n : ℚ) * (1/2)⌋).toNat = n / 2 := by
  have h : ((n : ℚ) * (1/2)) = (n : ℚ) / ((2 : ℕ) : ℚ) := by push_cast; ring
  rw [h, Int.floor_toNat, Nat.floor_div_nat, Nat.floor_natCast]

/-- The shape of `_apply_detail_level` on a non-unit detail level: each
output dimension is the clamped scaled dimension (whether or not the resize
call is taken). -/
lemma apply_detail_level_shape (resize : Grid → Nat → Nat → Grid)
    (hshape : ResizeShapeContract resize) (g : Grid) (d : ℚ) (hd : d ≠ 1) :
    (DepthAnalyzer.apply_detail_level resize g d).rows =
      DepthAnalyzer.clamp_dim ((⌊(g.rows : ℚ) * d⌋).toNat) ∧
    (DepthAnalyzer.apply_detail_level resize g d).cols =
      DepthAnalyzer.clamp_dim ((⌊(g.cols : ℚ) * d⌋).toNat) := by
  simp only [DepthAnalyzer.apply_detail_level, if_neg hd]
  split_ifs with heq
  · rw [Prod.mk.injEq] at heq
    exact ⟨heq.1.symm, heq.2.symm⟩
  · exact hshape g _ _

/-- C10: when `detail_level` is exactly `1.0` the resample stage returns the
grid unchanged (no `[32, 2048]` clamping, so a small grid keeps its
original resolution); for any `detail_level ≠ 1.0` both output dimensions
are forced into `[32, 2048]` — in particular a grid smaller than 32 per
axis is brought up to at least 32 per axis even when `detail_level < 1.0`
requests coarsening. -/
theorem C10_detail_level_clamping (resize : Grid → Nat → Nat → Grid)
    (hshape : ResizeShapeContract resize) (g : Grid) (d : ℚ) :
    DepthAnalyzer.apply_detail_level resize g 1 = g ∧
    (d ≠ 1 →
      32 ≤ (DepthAnalyzer.apply_detail_level resize g d).rows ∧
      (DepthAnalyzer.apply_detail_level resize g d).rows ≤ 2048 ∧
      32 ≤ (DepthAnalyzer.apply_detail_level resize g d).cols ∧
      (DepthAnalyzer.apply_detail_level resize g d).cols ≤ 2048) := by
  constructor
  · simp [DepthAnalyzer.apply_detail_level]
  · intro hd
    obtain ⟨hr, hc⟩ := apply_detail_level_shape resize hshape g d hd
    rw [hr, hc]
    exact ⟨(clamp_dim_bounds _).1, (clamp_dim_bounds _).2,
      (clamp_dim_bounds _).1, (clamp_dim_bounds _).2⟩

/-- Witness for C10 at the stub resize and a 5×70 grid. -/
theorem C10_witness :
    DepthAnalyzer.apply_detail_level extStub.resize ⟨5, 70, []⟩ 1 = ⟨5, 70, []⟩ ∧
    ((1/2 : ℚ) ≠ 1 →
      32 ≤ (DepthAnalyzer.apply_detail_level extStub.resize ⟨5, 70, []⟩ (1/2)).rows ∧
      (DepthAnalyzer.apply_detail_level extStub.resize ⟨5, 70, []⟩ (1/2)).rows ≤ 2048 ∧
      32 ≤ (DepthAnalyzer.apply_detail_level extStub.resize ⟨5, 70, []⟩ (1/2)).cols ∧
      (DepthAnalyzer.apply_detail_level extStub.resize ⟨5, 70, []⟩ (1/2)).cols ≤ 2048) :=
  C10_detail_level_clamping extStub.resize
    (fun _ _ _ => ⟨rfl, rfl⟩) ⟨5, 70, []⟩ (1/2)

/-- C8: `_apply_detail_level` scales each dimension by `detail_level` and
clamps to `[32, 2048]`; whenever neither the `detail_level = 0.5` nor the
`detail_level = 2.0` target size is clamped, raising `detail_level` from
`0.5` to `2.0` strictly increases the output point count. -/
theorem C8_detail_level_monotone (resize : Grid → Nat → Nat → Grid)
    (hshape : ResizeShapeContract resize) (g : Grid)
    (hr05 : DepthAnalyzer.clamp_dim ((⌊(g.rows : ℚ) * (1/2)⌋).toNat) =
      (⌊(g.rows : ℚ) * (1/2)⌋).toNat)
    (hc05 : DepthAnalyzer.clamp_dim ((⌊(g.cols : ℚ) * (1/2)⌋).toNat) =
      (⌊(g.cols : ℚ) * (1/2)⌋).toNat)
    (hr2 : DepthAnalyzer.clamp_dim ((⌊(g.rows : ℚ) * 2⌋).toNat) =
      (⌊(g.rows : ℚ) * 2⌋).toNat)
    (hc2 : DepthAnalyzer.clamp_dim ((⌊(g.cols : ℚ) * 2⌋).toNat) =
      (⌊(g.cols : ℚ) * 2⌋).toNat) :
    (DepthAnalyzer.apply_detail_level resize g (1/2)).size <
      (DepthAnalyzer.apply_detail_level resize g 2).size := by
  obtain ⟨hrowL, hcolL⟩ :=
    apply_detail_level_shape resize hshape g (1/2) (by norm_num)
  obtain ⟨hrowH, hcolH⟩ :=
    apply_detail_level_shape resize hshape g 2 (by norm_num)
  unfold Grid.size
  rw [hrowL, hcolL, hrowH, hcolH, hr05, hc05, hr2, hc2,
    floor_nat_mul_half, floor_nat_mul_half, floor_nat_mul_two, floor_nat_mul_two]
  have h64r : 64 ≤ g.rows := by
    have := (clamp_dim_fixed_bounds hr05).1
    rw [floor_nat_mul_half] at this
    omega
  have h64c : 64 ≤ g.cols := by
    have := (clamp_dim_fixed_bounds hc05).1
    rw [floor_nat_mul_half] at this
    omega
  calc g.rows / 2 * (g.cols / 2) ≤ g.rows * g.cols :=
        Nat.mul_le_mul (Nat.div_le_self _ _) (Nat.div_le_self _ _)
  _ < 2 * g.rows * (2 * g.cols) := by
      have hpos : 0 < g.rows * g.cols := Nat.mul_pos (by omega) (by omega)
      have : 2 * g.rows * (2 * g.cols) = 4 * (g.rows * g.cols) := by ring
      omega

/-- Witness for C8 at the stub resize and a 100×100 grid. -/
theorem C8_witness :
    (DepthAnalyzer.apply_detail_level extStub.resize ⟨100, 100, []⟩ (1/2)).size <
      (DepthAnalyzer.apply_detail_level extStub.resize ⟨100, 100, []⟩ 2).size :=
  C8_detail_level_monotone extStub.resize (fun _ _ _ => ⟨rfl, rfl⟩) ⟨100, 100, []⟩
    (by norm_num [DepthAnalyzer.clamp_dim])
    (by norm_num [DepthAnalyzer.clamp_dim])
    (by norm_num [DepthAnalyzer.clamp_dim])
    (by norm_num [DepthAnalyzer.clamp_dim])

/-! ## Frame condition: `analyze` never mutates its input (C9)

`analyze` is re-expressed at the level of numpy buffer allocation.  Every
array operation the source performs — `depth_map.astype(np.float32).copy()`,
`cv2.resize`, the arithmetic expression of `_invert`, `cv2.GaussianBlur`,
`np.full_like` and the arithmetic of `_normalize_to_range` — returns a
freshly allocated array and writes to no existing one (the source uses no
in-place numpy operation); the branches that return their argument
unchanged (detail level `1.0`, clamped target equal to the source size,
disabled inversion or smoothing) reuse the existing buffer.  The store
model makes this explicit: stages either reuse an address or append a new
buffer, and the theorem shows the caller's buffer is untouched. -/

/-- The flattened contents of one numpy array. -/
abbrev Buffer := List ℚ

/-- A heap of numpy array buffers addressed by allocation order. -/
abbrev Store := List Buffer

/-- Read the buffer at an address (empty list for a dangling address). -/
def Store.read (st : Store) (i : Nat) : Buffer := st.getD i []

/-- Allocate the grid's data as a fresh buffer at the end of the store:
`(new store, address, grid)`. -/
def alloc_grid (st : Store) (g : Grid) : Store × Nat × Grid :=
  (st ++ [g.data], st.length, g)

/-- `_apply_detail_level` at the store level: allocates exactly when
`cv2.resize` is called. -/
def detail_store (resize : Grid → Nat → Nat → Grid) (st : Store) (i : Nat)
    (g : Grid) (detail_level : ℚ) : Store × Nat × Grid :=
  if detail_level = 1 then (st, i, g)
  else
    let new_rows := DepthAnalyzer.clamp_dim (Int.toNat ⌊(g.rows : ℚ) * detail_level⌋)
    let new_cols := DepthAnalyzer.clamp_dim (Int.toNat ⌊(g.cols : ℚ) * detail_level⌋)
    if (new_rows, new_cols) = (g.rows, g.cols) then (st, i, g)
    else alloc_grid st (resize g new_rows new_cols)

/-- The optional `_invert` at the store level: the numpy expression
allocates its result. -/
def invert_store (st : Store) (i : Nat) (g : Grid) (invert_depth : Bool) :
    Store × Nat × Grid :=
  if invert_depth then alloc_grid st (DepthAnalyzer.invert g) else (st, i, g)

/-- The optional `_smooth` at the store level: `cv2.GaussianBlur` allocates
its result. -/
def smooth_store (gaussianBlur : Grid → Nat → Grid) (st : Store) (i : Nat)
    (g : Grid) (smoothing : Bool) : Store × Nat × Grid :=
  if smoothing then alloc_grid st (DepthAnalyzer.smooth gaussianBlur g 5)
  else (st, i, g)

/-- `_normalize_to_range` at the store level: both branches
(`np.full_like`, arithmetic) allocate. -/
def normalize_store (st : Store) (g : Grid) (mn mx : ℚ) : Store × Nat × Grid :=
  alloc_grid st (DepthAnalyzer.normalize_to_range g mn mx)

/-- The four pipeline stages at the store level, starting from the
already-copied heights buffer: `(final store, result address)`. -/
def pipeline_store (ext : Externals) (st : Store) (i : Nat) (g : Grid)
    (config : ConversionConfig) : Store × Nat :=
  let s2 := detail_store ext.resize st i g config.detail_level
  let s3 := invert_store s2.1 s2.2.1 s2.2.2 config.invert_depth
  let s4 := smooth_store ext.gaussianBlur s3.1 s3.2.1 s3.2.2 config.smoothing
  let s5 := normalize_store s4.1 s4.2.2 config.base_thickness
    (config.base_thickness + config.max_height)
  (s5.1, s5.2.1)

/-- `analyze` at the store level.  The input array lives at address `input`
with the given shape; the result is the final store and the address of
the returned heights buffer (or the validation error). -/
def analyze_store (ext : Externals) (st0 : Store) (input : Nat)
    (shape : List Nat) (config : ConversionConfig) : Store × Except String Nat :=
  match DepthAnalyzer.validate_depth_map ⟨shape, st0.read input⟩ with
  | .error msg => (st0, .error msg)
  | .ok _ =>
    let s1 := alloc_grid st0 (NDArray.toGrid ⟨shape, st0.read input⟩)
    let p := pipeline_store ext s1.1 s1.2.1 s1.2.2 config
    (p.1, .ok p.2)

lemma read_append {st : Store} (tl : List Buffer) {i : Nat} (h : i < st.length) :
    Store.read (st ++ tl) i = st.read i :=
  List.getD_append st tl [] i h

lemma detail_store_extends (resize : Grid → Nat → Nat → Grid) (st : Store)
    (i : Nat) (g : Grid) (d : ℚ) :
    ∃ tl, (detail_store resize st i g d).1 = st ++ tl := by
  simp only [detail_store, alloc_grid]
  split_ifs
  · exact ⟨[], by simp⟩
  · exact ⟨[], by simp⟩
  · exact ⟨_, rfl⟩

lemma invert_store_extends (st : Store) (i : Nat) (g : Grid) (b : Bool) :
    ∃ tl, (invert_store st i g b).1 = st ++ tl := by
  unfold invert_store alloc_grid
  split_ifs
  · exact ⟨_, rfl⟩
  · exact ⟨[], by simp⟩

lemma smooth_store_extends (gaussianBlur : Grid → Nat → Grid) (st : Store)
    (i : Nat) (g : Grid) (b : Bool) :
    ∃ tl, (smooth_store gaussianBlur st i g b).1 = st ++ tl := by
  unfold smooth_store alloc_grid
  split_ifs
  · exact ⟨_, rfl⟩
  · exact ⟨[], by simp⟩

/-- The staged pipeline only appends buffers, and the returned address is at
least the initial store length (the final normalise stage always
allocates). -/
lemma pipeline_store_spec (ext : Externals) (st : Store) (i : Nat) (g : Grid)
    (config : ConversionConfig) :
    (∃ tl, (pipeline_store ext st i g config).1 = st ++ tl) ∧
      st.length ≤ (pipeline_store ext st i g config).2 := by
  simp only [pipeline_store]
  set s2 := detail_store ext.resize st i g config.detail_level with hs2
  set s3 := invert_store s2.1 s2.2.1 s2.2.2 config.invert_depth with hs3
  set s4 := smooth_store ext.gaussianBlur s3.1 s3.2.1 s3.2.2 config.smoothing with hs4
  obtain ⟨t2, h2⟩ := detail_store_extends ext.resize st i g config.detail_level
  rw [← hs2] at h2
  obtain ⟨t3, h3⟩ := invert_store_extends s2.1 s2.2.1 s2.2.2 config.invert_depth
  rw [← hs3] at h3
  obtain ⟨t4, h4⟩ := smooth_store_extends ext.gaussianBlur s3.1 s3.2.1 s3.2.2
    config.smoothing
  rw [← hs4] at h4
  have hst4 : s4.1 = st ++ (t2 ++ t3 ++ t4) := by
    rw [h4, h3, h2]
    simp [List.append_assoc]
  constructor
  · refine ⟨t2 ++ t3 ++ t4 ++
      [(DepthAnalyzer.normalize_to_range s4.2.2 config.base_thickness
        (config.base_thickness + config.max_height)).data], ?_⟩
    show s4.1 ++ _ = _
    rw [hst4]
    simp [List.append_assoc]
  · show st.length ≤ s4.1.length
    rw [hst4]
    simp

/-- C9: `analyze` never mutates the caller's input array.  In the
allocation-level model of the source (every numpy / cv2 operation used
returns a fresh array; no in-place writes), the final store extends the
initial one, the caller's buffer reads back unchanged, and the returned
heights buffer is a strictly fresher address than the input (the stage
works on a copy and returns a new grid). -/
theorem C9_analyze_no_mutation (ext : Externals) (st : Store) (input : Nat)
    (shape : List Nat) (config : ConversionConfig) (hlt : input < st.length) :
    (∃ tl, (analyze_store ext st input shape config).1 = st ++ tl) ∧
    (analyze_store ext st input shape config).1.read input = st.read input ∧
    (∀ j, (analyze_store ext st input shape config).2 = .ok j → input < j) := by
  unfold analyze_store
  rcases hv : DepthAnalyzer.validate_depth_map ⟨shape, st.read input⟩ with msg | u
  · refine ⟨⟨[], by simp⟩, rfl, ?_⟩
    intro j hj
    simp at hj
  · have hcopy : (alloc_grid st (NDArray.toGrid ⟨shape, st.read input⟩)).1 =
        st ++ [(NDArray.toGrid ⟨shape, st.read input⟩).data] := rfl
    obtain ⟨hext, hlen⟩ := pipeline_store_spec ext
      (alloc_grid st (NDArray.toGrid ⟨shape, st.read input⟩)).1
      (alloc_grid st (NDArray.toGrid ⟨shape, st.read input⟩)).2.1
      (alloc_grid st (NDArray.toGrid ⟨shape, st.read input⟩)).2.2 config
    obtain ⟨tl, htl⟩ := hext
    have hclen : (alloc_grid st (NDArray.toGrid ⟨shape, st.read input⟩)).1.length =
        st.length + 1 := by
      rw [hcopy]
      simp
    refine ⟨⟨(NDArray.toGrid ⟨shape, st.read input⟩).data :: tl, ?_⟩, ?_, ?_⟩
    · show (pipeline_store ext _ _ _ config).1 = _
      rw [htl, hcopy]
      simp
    · show Store.read (pipeline_store ext _ _ _ config).1 input = st.read input
      rw [htl, hcopy, List.append_assoc]
      exact read_append _ hlt
    · intro j hj
      have hj2 : (pipeline_store ext
          (alloc_grid st (NDArray.toGrid ⟨shape, st.read input⟩)).1
          (alloc_grid st (NDArray.toGrid ⟨shape, st.read input⟩)).2.1
          (alloc_grid st (NDArray.toGrid ⟨shape, st.read input⟩)).2.2 config).2 = j := by
        simpa using hj
      rw [hj2] at hlen
      omega

/-- Witness for C9 at a one-buffer store and the default configuration. -/
theorem C9_witness :
    (∃ tl, (analyze_store extStub [[0, 1, 2, 3]] 0 [2, 2] cfg0).1 =
      [[0, 1, 2, 3]] ++ tl) ∧
    (analyze_store extStub [[0, 1, 2, 3]] 0 [2, 2] cfg0).1.read 0 =
      Store.read [[0, 1, 2, 3]] 0 ∧
    (∀ j, (analyze_store extStub [[0, 1, 2, 3]] 0 [2, 2] cfg0).2 = .ok j → 0 < j) :=
  C9_analyze_no_mutation extStub [[0, 1, 2, 3]] 0 [2, 2] cfg0 (by decide)

/-! ## Surface Mesh Builder (C2)

Modelled from the spec: the Surface Mesh Builder lives in
`pipeline/scad_generator.py`, which is absent from the source tree (only its
unit tests and its callers are present).  Spec 4.2 prescribes: one top
vertex per grid cell at its height, a mirrored base vertex at `z = 0`, top
faces of two triangles per interior grid cell, a flat closing base surface,
one wall quad per boundary edge connecting top and base boundaries, and the
watertightness/orientation invariant.  The model below fixes the
triangulation diagonal and face windings; the claim is stated
combinatorially: every directed edge of the face list appears at most once,
the reverse of every present edge is present (consistent opposite
windings), hence every undirected edge of the mesh lies in exactly two
faces. -/

/-- Modelled from the spec: an abstract mesh vertex of the relief solid —
the top-surface vertex or the base vertex of grid point `(r, c)`. -/
inductive MVert where
  | top (r c : Nat)
  | base (r c : Nat)
deriving DecidableEq

/-- Modelled from the spec: the faces contributed by interior grid cell
`(r, c)` — the two top triangles of the cell and the two mirrored base
triangles, with opposite windings. -/
def cellFaces (r c : Nat) : List (List MVert) :=
  [[.top r c, .top (r+1) c, .top (r+1) (c+1)],
   [.top r c, .top (r+1) (c+1), .top r (c+1)],
   [.base r c, .base (r+1) (c+1), .base (r+1) c],
   [.base r c, .base r (c+1), .base (r+1) (c+1)]]

/-- Modelled from the spec: the directed boundary edges `(u, v)` of an
`R × C` grid, one per boundary edge cell, oriented as a single cycle around
the perimeter (down the first column, along the last row, up the last
column, and back along the first row). -/
def perimeterEdges (R C : Nat) : List ((Nat × Nat) × (Nat × Nat)) :=
  ((List.range (R-1)).map fun r => ((r, 0), (r+1, 0))) ++
  ((List.range (C-1)).map fun c => (((0:Nat), c+1), ((0:Nat), c))) ++
  ((List.range (C-1)).map fun c => ((R-1, c), (R-1, c+1))) ++
  ((List.range (R-1)).map fun r => ((r+1, C-1), (r, C-1)))

/-- Modelled from the spec: the wall quad for boundary edge `(u, v)`,
connecting the top boundary to the corresponding base boundary. -/
def wallFace (uv : (Nat × Nat) × (Nat × Nat)) : List MVert :=
  [.top uv.2.1 uv.2.2, .top uv.1.1 uv.1.2, .base uv.1.1 uv.1.2, .base uv.2.1 uv.2.2]

/-- Modelled from the spec: the complete face list of the relief solid over
an `R × C` height grid (top and base triangles of every interior cell, plus
one wall quad per boundary edge). -/
def buildFacesM (R C : Nat) : List (List MVert) :=
  ((List.range (R-1)).flatMap fun r =>
    (List.range (C-1)).flatMap fun c => cellFaces r c) ++
  (perimeterEdges R C).map wallFace

/-- The directed boundary edges of a face (consecutive vertices, wrapping
around). -/
def faceEdges {α : Type} : List α → List (α × α)
  | [] => []
  | x :: xs => (x :: xs).zip (xs ++ [x])

/-- All directed edges of a face list, with multiplicity. -/
def meshEdges {α : Type} (faces : List (List α)) : List (α × α) :=
  faces.flatMap faceEdges

/-- The twelve directed edges contributed by interior cell `(r, c)`. -/
def cellEdges (r c : Nat) : List (MVert × MVert) :=
  [(.top r c, .top (r+1) c), (.top (r+1) c, .top (r+1) (c+1)),
   (.top (r+1) (c+1), .top r c),
   (.top r c, .top (r+1) (c+1)), (.top (r+1) (c+1), .top r (c+1)),
   (.top r (c+1), .top r c),
   (.base r c, .base (r+1) (c+1)), (.base (r+1) (c+1), .base (r+1) c),
   (.base (r+1) c, .base r c),
   (.base r c, .base r (c+1)), (.base r (c+1), .base (r+1) (c+1)),
   (.base (r+1) (c+1), .base r c)]

lemma meshEdges_cellFaces (r c : Nat) :
    meshEdges (cellFaces r c) = cellEdges r c := rfl

/-- The four directed edges of the wall quad for boundary edge `(u, v)`. -/
def wallEdges (uv : (Nat × Nat) × (Nat × Nat)) : List (MVert × MVert) :=
  [(.top uv.2.1 uv.2.2, .top uv.1.1 uv.1.2),
   (.top uv.1.1 uv.1.2, .base uv.1.1 uv.1.2),
   (.base uv.1.1 uv.1.2, .base uv.2.1 uv.2.2),
   (.base uv.2.1 uv.2.2, .top uv.2.1 uv.2.2)]

lemma meshEdges_wallFace (uv : (Nat × Nat) × (Nat × Nat)) :
    meshEdges [wallFace uv] = wallEdges uv := rfl

/-- The cell that contributes a directed top-surface edge
`(top x y, top x' y')`. -/
def cellSelTT (x y x' y' : Nat) : Option (Nat × Nat) :=
  if x' = x + 1 ∧ y' = y then some (x, y)
  else if x = x' ∧ y' = y + 1 then
    (if 1 ≤ x then some (x - 1, y) else none)
  else if x = x' + 1 ∧ y = y' + 1 then some (x', y')
  else if x' = x + 1 ∧ y' = y + 1 then some (x, y)
  else if x = x' + 1 ∧ y = y' then
    (if 1 ≤ y then some (x', y - 1) else none)
  else if x = x' ∧ y = y' + 1 then some (x, y')
  else none

/-- The cell that contributes a directed base edge
`(base x y, base x' y')`. -/
def cellSelBB (x y x' y' : Nat) : Option (Nat × Nat) :=
  if x' = x + 1 ∧ y' = y + 1 then some (x, y)
  else if x = x' ∧ y = y' + 1 then
    (if 1 ≤ x then some (x - 1, y') else none)
  else if x = x' + 1 ∧ y = y' then some (x', y)
  else if x = x' ∧ y' = y + 1 then some (x, y)
  else if x' = x + 1 ∧ y = y' then
    (if 1 ≤ y then some (x, y - 1) else none)
  else if x = x' + 1 ∧ y = y' + 1 then some (x', y')
  else none

/-- The cell that contributes a given directed edge (together with the in-
range requirement checked at the surrounding `flatMap`): the partial inverse
of `cellEdges`.  Vertical (top–base) edges come only from walls. -/
def cellSel : MVert × MVert → Option (Nat × Nat)
  | (.top x y, .top x' y') => cellSelTT x y x' y'
  | (.top _ _, .base _ _) => none
  | (.base _ _, .top _ _) => none
  | (.base x y, .base x' y') => cellSelBB x y x' y'

lemma cellSel_tt (x y x' y' : Nat) :
    cellSel (.top x y, .top x' y') = cellSelTT x y x' y' := rfl

lemma cellSel_tb (x y x' y' : Nat) :
    cellSel (.top x y, .base x' y') = none := rfl

lemma cellSel_bt (x y x' y' : Nat) :
    cellSel (.base x y, .top x' y') = none := rfl

lemma cellSel_bb (x y x' y' : Nat) :
    cellSel (.base x y, .base x' y') = cellSelBB x y x' y' := rfl

lemma cellEdges_nodup (r c : Nat) : (cellEdges r c).Nodup := by
  simp [cellEdges]

lemma cellSel_of_mem (r c : Nat) : ∀ e ∈ cellEdges r c, cellSel e = some (r, c) := by
  intro e he
  simp only [cellEdges, List.mem_cons, List.not_mem_nil, or_false] at he
  rcases he with rfl | rfl | rfl | rfl | rfl | rfl | rfl | rfl | rfl | rfl | rfl | rfl <;>
    (simp only [cellSel, cellSelTT, cellSelBB]; split_ifs <;> first | omega | (simp_all; omega) | simp_all)

/-- An indexed union of no-duplicate lists is duplicate-free when every
element determines its index. -/
lemma nodup_flatMap_range {α : Type} (key : α → Nat) :
    ∀ (n : Nat) (g : Nat → List α),
      (∀ i, i < n → (g i).Nodup) →
      (∀ i, i < n → ∀ a ∈ g i, key a = i) →
      ((List.range n).flatMap g).Nodup := by
  intro n
  induction n with
  | zero =>
    intro g _ _
    simp
  | succ k ih =>
    intro g hnd hkey
    rw [List.range_succ, List.flatMap_append]
    refine List.Nodup.append ?_ ?_ ?_
    · exact ih g (fun i hi => hnd i (by omega)) (fun i hi => hkey i (by omega))
    · simpa using hnd k (by omega)
    · intro a ha hb
      simp only [List.mem_flatMap, List.mem_range] at ha
      obtain ⟨i, hi, hai⟩ := ha
      have h1 : key a = i := hkey i (by omega) a hai
      have h2 : key a = k := by
        simp only [List.flatMap_cons, List.flatMap_nil, List.append_nil] at hb
        exact hkey k (by omega) a hb
      omega

/-- All cell-face edges of the grid. -/
def cellsEdges (R C : Nat) : List (MVert × MVert) :=
  (List.range (R-1)).flatMap fun r => (List.range (C-1)).flatMap fun c => cellEdges r c

lemma cellsEdges_nodup (R C : Nat) : (cellsEdges R C).Nodup := by
  refine nodup_flatMap_range (fun e => ((cellSel e).getD (0, 0)).1) (R-1) _ ?_ ?_
  · intro r _
    refine nodup_flatMap_range (fun e => ((cellSel e).getD (0, 0)).2) (C-1) _ ?_ ?_
    · intro c _
      exact cellEdges_nodup r c
    · intro c _ e he
      simp [cellSel_of_mem r c e he]
  · intro r _ e he
    simp only [List.mem_flatMap, List.mem_range] at he
    obtain ⟨c, _, hce⟩ := he
    simp [cellSel_of_mem r c e hce]

lemma mem_cellsEdges_sel {R C : Nat} {e : MVert × MVert} (he : e ∈ cellsEdges R C) :
    ∃ r c, r < R - 1 ∧ c < C - 1 ∧ cellSel e = some (r, c) ∧ e ∈ cellEdges r c := by
  simp only [cellsEdges, List.mem_flatMap, List.mem_range] at he
  obtain ⟨r, hr, c, hc, hce⟩ := he
  exact ⟨r, c, hr, hc, cellSel_of_mem r c e hce, hce⟩

lemma mem_cellsEdges_of {R C : Nat} (r c : Nat) {e : MVert × MVert} (hr : r < R - 1)
    (hc : c < C - 1) (he : e ∈ cellEdges r c) : e ∈ cellsEdges R C := by
  simp only [cellsEdges, List.mem_flatMap, List.mem_range]
  exact ⟨r, hr, c, hc, he⟩

/-- Wall edges along the first column (`(r,0) → (r+1,0)`). -/
def col0Walls (R : Nat) : List (MVert × MVert) :=
  (List.range (R-1)).flatMap fun r => wallEdges ((r, 0), (r+1, 0))

/-- Wall edges along the first row (`(0,c+1) → (0,c)`). -/
def row0Walls (C : Nat) : List (MVert × MVert) :=
  (List.range (C-1)).flatMap fun c => wallEdges (((0:Nat), c+1), ((0:Nat), c))

/-- Wall edges along the last row (`(R-1,c) → (R-1,c+1)`). -/
def rowLastWalls (R C : Nat) : List (MVert × MVert) :=
  (List.range (C-1)).flatMap fun c => wallEdges ((R-1, c), (R-1, c+1))

/-- Wall edges along the last column (`(r+1,C-1) → (r,C-1)`). -/
def colLastWalls (R C : Nat) : List (MVert × MVert) :=
  (List.range (R-1)).flatMap fun r => wallEdges ((r+1, C-1), (r, C-1))

/-- All wall edges. -/
def wallsEdges (R C : Nat) : List (MVert × MVert) :=
  col0Walls R ++ row0Walls C ++ rowLastWalls R C ++ colLastWalls R C

/-- The full directed-edge list decomposes into cell and wall edges. -/
lemma meshEdges_decomp (R C : Nat) :
    meshEdges (buildFacesM R C) = cellsEdges R C ++ wallsEdges R C := by
  unfold meshEdges buildFacesM cellsEdges wallsEdges perimeterEdges
    col0Walls row0Walls rowLastWalls colLastWalls
  rw [List.flatMap_append, List.flatMap_assoc]
  congr 1
  · refine congrArg _ (funext fun r => ?_)
    rw [List.flatMap_assoc]
    rfl
  · rw [List.flatMap_map]
    rw [List.flatMap_append, List.flatMap_append, List.flatMap_append]
    rw [List.flatMap_map, List.flatMap_map, List.flatMap_map, List.flatMap_map]
    rfl

lemma wallEdges_nodup (uv : (Nat × Nat) × (Nat × Nat)) : (wallEdges uv).Nodup := by
  simp [wallEdges]

/-- Index-recovery for first-column wall edges. -/
def keyCol0 : MVert × MVert → Nat
  | (.top x _, .top _ _) => x - 1
  | (.top x _, .base _ _) => x
  | (.base x _, .base _ _) => x
  | (.base x _, .top _ _) => x - 1

/-- Index-recovery for first-row wall edges. -/
def keyRow0 : MVert × MVert → Nat
  | (.top _ y, .top _ _) => y
  | (.top _ y, .base _ _) => y - 1
  | (.base _ y, .base _ _) => y - 1
  | (.base _ y, .top _ _) => y

/-- Index-recovery for last-row wall edges. -/
def keyRowLast : MVert × MVert → Nat
  | (.top _ y, .top _ _) => y - 1
  | (.top _ y, .base _ _) => y
  | (.base _ y, .base _ _) => y
  | (.base _ y, .top _ _) => y - 1

/-- Index-recovery for last-column wall edges. -/
def keyColLast : MVert × MVert → Nat
  | (.top x _, .top _ _) => x
  | (.top x _, .base _ _) => x - 1
  | (.base x _, .base _ _) => x - 1
  | (.base x _, .top _ _) => x

lemma col0Walls_nodup (R : Nat) : (col0Walls R).Nodup := by
  refine nodup_flatMap_range keyCol0 (R-1) _ (fun i _ => wallEdges_nodup _) ?_
  intro r _ e he
  simp only [wallEdges, List.mem_cons, List.not_mem_nil, or_false] at he
  rcases he with rfl | rfl | rfl | rfl <;> simp [keyCol0]

lemma row0Walls_nodup (C : Nat) : (row0Walls C).Nodup := by
  refine nodup_flatMap_range keyRow0 (C-1) _ (fun i _ => wallEdges_nodup _) ?_
  intro c _ e he
  simp only [wallEdges, List.mem_cons, List.not_mem_nil, or_false] at he
  rcases he with rfl | rfl | rfl | rfl <;> simp [keyRow0]

lemma rowLastWalls_nodup (R C : Nat) : (rowLastWalls R C).Nodup := by
  refine nodup_flatMap_range keyRowLast (C-1) _ (fun i _ => wallEdges_nodup _) ?_
  intro c _ e he
  simp only [wallEdges, List.mem_cons, List.not_mem_nil, or_false] at he
  rcases he with rfl | rfl | rfl | rfl <;> simp [keyRowLast]

lemma colLastWalls_nodup (R C : Nat) : (colLastWalls R C).Nodup := by
  refine nodup_flatMap_range keyColLast (R-1) _ (fun i _ => wallEdges_nodup _) ?_
  intro r _ e he
  simp only [wallEdges, List.mem_cons, List.not_mem_nil, or_false] at he
  rcases he with rfl | rfl | rfl | rfl <;> simp [keyColLast]

lemma mem_col0Walls {R : Nat} {e : MVert × MVert} :
    e ∈ col0Walls R ↔ ∃ r, r < R - 1 ∧ e ∈ wallEdges ((r, 0), (r+1, 0)) := by
  simp [col0Walls, List.mem_flatMap, List.mem_range]

lemma mem_row0Walls {C : Nat} {e : MVert × MVert} :
    e ∈ row0Walls C ↔ ∃ c, c < C - 1 ∧ e ∈ wallEdges (((0:Nat), c+1), ((0:Nat), c)) := by
  simp [row0Walls, List.mem_flatMap, List.mem_range]

lemma mem_rowLastWalls {R C : Nat} {e : MVert × MVert} :
    e ∈ rowLastWalls R C ↔ ∃ c, c < C - 1 ∧ e ∈ wallEdges ((R-1, c), (R-1, c+1)) := by
  simp [rowLastWalls, List.mem_flatMap, List.mem_range]

lemma mem_colLastWalls {R C : Nat} {e : MVert × MVert} :
    e ∈ colLastWalls R C ↔ ∃ r, r < R - 1 ∧ e ∈ wallEdges ((r+1, C-1), (r, C-1)) := by
  simp [colLastWalls, List.mem_flatMap, List.mem_range]

lemma disj_col0_row0 {R C : Nat} : (col0Walls R).Disjoint (row0Walls C) := by
  intro e he1 he2
  rw [mem_col0Walls] at he1
  rw [mem_row0Walls] at he2
  obtain ⟨r, hr, he1⟩ := he1
  obtain ⟨c, hc, he2⟩ := he2
  simp only [wallEdges, List.mem_cons, List.not_mem_nil, or_false] at he1 he2
  rcases he1 with rfl | rfl | rfl | rfl <;> simp_all <;> omega

lemma disj_col0_rowLast {R C : Nat} : (col0Walls R).Disjoint (rowLastWalls R C) := by
  intro e he1 he2
  rw [mem_col0Walls] at he1
  rw [mem_rowLastWalls] at he2
  obtain ⟨r, hr, he1⟩ := he1
  obtain ⟨c, hc, he2⟩ := he2
  simp only [wallEdges, List.mem_cons, List.not_mem_nil, or_false] at he1 he2
  rcases he1 with rfl | rfl | rfl | rfl <;> simp_all <;> omega

lemma disj_col0_colLast {R C : Nat} (hC : 2 ≤ C) :
    (col0Walls R).Disjoint (colLastWalls R C) := by
  intro e he1 he2
  rw [mem_col0Walls] at he1
  rw [mem_colLastWalls] at he2
  obtain ⟨r, hr, he1⟩ := he1
  obtain ⟨c, hc, he2⟩ := he2
  simp only [wallEdges, List.mem_cons, List.not_mem_nil, or_false] at he1 he2
  rcases he1 with rfl | rfl | rfl | rfl <;> simp_all <;> omega

lemma disj_row0_rowLast {R C : Nat} (hR : 2 ≤ R) :
    (row0Walls C).Disjoint (rowLastWalls R C) := by
  intro e he1 he2
  rw [mem_row0Walls] at he1
  rw [mem_rowLastWalls] at he2
  obtain ⟨c, hc, he1⟩ := he1
  obtain ⟨c', hc', he2⟩ := he2
  simp only [wallEdges, List.mem_cons, List.not_mem_nil, or_false] at he1 he2
  rcases he1 with rfl | rfl | rfl | rfl <;> simp_all <;> omega

lemma disj_row0_colLast {R C : Nat} : (row0Walls C).Disjoint (colLastWalls R C) := by
  intro e he1 he2
  rw [mem_row0Walls] at he1
  rw [mem_colLastWalls] at he2
  obtain ⟨c, hc, he1⟩ := he1
  obtain ⟨r, hr, he2⟩ := he2
  simp only [wallEdges, List.mem_cons, List.not_mem_nil, or_false] at he1 he2
  rcases he1 with rfl | rfl | rfl | rfl <;> simp_all <;> omega

lemma disj_rowLast_colLast {R C : Nat} : (rowLastWalls R C).Disjoint (colLastWalls R C) := by
  intro e he1 he2
  rw [mem_rowLastWalls] at he1
  rw [mem_colLastWalls] at he2
  obtain ⟨c, hc, he1⟩ := he1
  obtain ⟨r, hr, he2⟩ := he2
  simp only [wallEdges, List.mem_cons, List.not_mem_nil, or_false] at he1 he2
  rcases he1 with rfl | rfl | rfl | rfl <;> simp_all <;> omega

lemma wallsEdges_nodup (R C : Nat) (hR : 2 ≤ R) (hC : 2 ≤ C) :
    (wallsEdges R C).Nodup := by
  unfold wallsEdges
  refine List.Nodup.append
    (List.Nodup.append
      (List.Nodup.append (col0Walls_nodup R) (row0Walls_nodup C) disj_col0_row0)
      (rowLastWalls_nodup R C) ?_)
    (colLastWalls_nodup R C) ?_
  · rw [List.disjoint_append_left]
    exact ⟨disj_col0_rowLast, disj_row0_rowLast hR⟩
  · rw [List.disjoint_append_left, List.disjoint_append_left]
    exact ⟨⟨disj_col0_colLast hC, disj_row0_colLast⟩, disj_rowLast_colLast⟩

set_option maxHeartbeats 2000000 in
/-- A cell edge is never a wall edge: evaluating the cell selector on each
wall-edge shape gives `none` or an out-of-range cell. -/
lemma cells_walls_disjoint (R C : Nat) :
    (cellsEdges R C).Disjoint (wallsEdges R C) := by
  intro e he1 he2
  obtain ⟨r, c, hr, hc, hsel, -⟩ := mem_cellsEdges_sel he1
  simp only [wallsEdges, List.mem_append] at he2
  rcases he2 with ((h | h) | h) | h
  · rw [mem_col0Walls] at h
    obtain ⟨r', hr', h⟩ := h
    simp only [wallEdges, List.mem_cons, List.not_mem_nil, or_false] at h
    rcases h with rfl | rfl | rfl | rfl <;>
      simp only [cellSel_tt, cellSel_tb, cellSel_bt, cellSel_bb] at hsel <;>
      (try unfold cellSelTT at hsel) <;>
      (try unfold cellSelBB at hsel) <;>
      (try split_ifs at hsel) <;>
      (try simp only [Option.some.injEq, Prod.mk.injEq, reduceCtorEq] at hsel) <;>
      (try simp only [and_false, false_and, and_true, true_and, eq_self_iff_true,
        not_true, not_false_iff] at *) <;>
      omega
  · rw [mem_row0Walls] at h
    obtain ⟨c', hc', h⟩ := h
    simp only [wallEdges, List.mem_cons, List.not_mem_nil, or_false] at h
    rcases h with rfl | rfl | rfl | rfl <;>
      simp only [cellSel_tt, cellSel_tb, cellSel_bt, cellSel_bb] at hsel <;>
      (try unfold cellSelTT at hsel) <;>
      (try unfold cellSelBB at hsel) <;>
      (try split_ifs at hsel) <;>
      (try simp only [Option.some.injEq, Prod.mk.injEq, reduceCtorEq] at hsel) <;>
      (try simp only [and_false, false_and, and_true, true_and, eq_self_iff_true,
        not_true, not_false_iff] at *) <;>
      omega
  · rw [mem_rowLastWalls] at h
    obtain ⟨c', hc', h⟩ := h
    simp only [wallEdges, List.mem_cons, List.not_mem_nil, or_false] at h
    rcases h with rfl | rfl | rfl | rfl <;>
      simp only [cellSel_tt, cellSel_tb, cellSel_bt, cellSel_bb] at hsel <;>
      (try unfold cellSelTT at hsel) <;>
      (try unfold cellSelBB at hsel) <;>
      (try split_ifs at hsel) <;>
      (try simp only [Option.some.injEq, Prod.mk.injEq, reduceCtorEq] at hsel) <;>
      (try simp only [and_false, false_and, and_true, true_and, eq_self_iff_true,
        not_true, not_false_iff] at *) <;>
      omega
  · rw [mem_colLastWalls] at h
    obtain ⟨r', hr', h⟩ := h
    simp only [wallEdges, List.mem_cons, List.not_mem_nil, or_false] at h
    rcases h with rfl | rfl | rfl | rfl <;>
      simp only [cellSel_tt, cellSel_tb, cellSel_bt, cellSel_bb] at hsel <;>
      (try unfold cellSelTT at hsel) <;>
      (try unfold cellSelBB at hsel) <;>
      (try split_ifs at hsel) <;>
      (try simp only [Option.some.injEq, Prod.mk.injEq, reduceCtorEq] at hsel) <;>
      (try simp only [and_false, false_and, and_true, true_and, eq_self_iff_true,
        not_true, not_false_iff] at *) <;>
      omega

/-- The complete directed-edge list of the mesh has no duplicates: no
directed edge is emitted twice. -/
lemma meshEdges_nodup (R C : Nat) (hR : 2 ≤ R) (hC : 2 ≤ C) :
    (meshEdges (buildFacesM R C)).Nodup := by
  rw [meshEdges_decomp]
  exact List.Nodup.append (cellsEdges_nodup R C) (wallsEdges_nodup R C hR hC)
    (cells_walls_disjoint R C)

lemma mem_walls_col0 {R C : Nat} (r : Nat) (hr : r < R - 1) {e : MVert × MVert}
    (he : e ∈ wallEdges ((r, 0), (r+1, 0))) : e ∈ wallsEdges R C := by
  simp only [wallsEdges, List.mem_append]
  exact Or.inl (Or.inl (Or.inl (mem_col0Walls.mpr ⟨r, hr, he⟩)))

lemma mem_walls_row0 {R C : Nat} (c : Nat) (hc : c < C - 1) {e : MVert × MVert}
    (he : e ∈ wallEdges (((0:Nat), c+1), ((0:Nat), c))) : e ∈ wallsEdges R C := by
  simp only [wallsEdges, List.mem_append]
  exact Or.inl (Or.inl (Or.inr (mem_row0Walls.mpr ⟨c, hc, he⟩)))

lemma mem_walls_rowLast {R C : Nat} (c : Nat) (hc : c < C - 1) {e : MVert × MVert}
    (he : e ∈ wallEdges ((R-1, c), (R-1, c+1))) : e ∈ wallsEdges R C := by
  simp only [wallsEdges, List.mem_append]
  exact Or.inl (Or.inr (mem_rowLastWalls.mpr ⟨c, hc, he⟩))

lemma mem_walls_colLast {R C : Nat} (r : Nat) (hr : r < R - 1) {e : MVert × MVert}
    (he : e ∈ wallEdges ((r+1, C-1), (r, C-1))) : e ∈ wallsEdges R C := by
  simp only [wallsEdges, List.mem_append]
  exact Or.inr (mem_colLastWalls.mpr ⟨r, hr, he⟩)

set_option maxHeartbeats 2000000 in
/-- The reverse of every directed edge of the mesh is also a directed edge
of the mesh: adjacent faces traverse their shared edge in opposite
directions. -/
lemma swap_mem_meshEdges (R C : Nat) (hR : 2 ≤ R) (hC : 2 ≤ C) :
    ∀ e ∈ meshEdges (buildFacesM R C), Prod.swap e ∈ meshEdges (buildFacesM R C) := by
  obtain ⟨Rk, rfl⟩ : ∃ k, R = k + 2 := ⟨R - 2, by omega⟩
  obtain ⟨Ck, rfl⟩ : ∃ k, C = k + 2 := ⟨C - 2, by omega⟩
  have hR1 : Rk + 2 - 1 = Rk + 1 := rfl
  have hC1 : Ck + 2 - 1 = Ck + 1 := rfl
  intro e he
  rw [meshEdges_decomp, List.mem_append] at he ⊢
  rcases he with he | he
  · obtain ⟨r, c, hr, hc, -, hmem⟩ := mem_cellsEdges_sel he
    rw [hR1] at hr
    rw [hC1] at hc
    simp only [cellEdges, List.mem_cons, List.not_mem_nil, or_false] at hmem
    rcases hmem with rfl | rfl | rfl | rfl | rfl | rfl | rfl | rfl | rfl | rfl | rfl | rfl <;>
      rw [Prod.swap_prod_mk]
    · rcases c with _ | c1
      · exact Or.inr (mem_walls_col0 r (by omega) (by simp [wallEdges]))
      · exact Or.inl (mem_cellsEdges_of r c1 (by omega) (by omega) (by simp [cellEdges]))
    · by_cases h : r + 1 < Rk + 1
      · exact Or.inl (mem_cellsEdges_of (r+1) c (by omega) (by omega) (by simp [cellEdges]))
      · have hr1 : r = Rk := by omega
        subst hr1
        exact Or.inr (mem_walls_rowLast c (by omega) (by simp [wallEdges, hR1]))
    · exact Or.inl (mem_cellsEdges_of r c (by omega) (by omega) (by simp [cellEdges]))
    · exact Or.inl (mem_cellsEdges_of r c (by omega) (by omega) (by simp [cellEdges]))
    · by_cases h : c + 1 < Ck + 1
      · exact Or.inl (mem_cellsEdges_of r (c+1) (by omega) (by omega) (by simp [cellEdges]))
      · have hc1 : c = Ck := by omega
        subst hc1
        exact Or.inr (mem_walls_colLast r (by omega) (by simp [wallEdges, hC1]))
    · rcases r with _ | r1
      · exact Or.inr (mem_walls_row0 c (by omega) (by simp [wallEdges]))
      · exact Or.inl (mem_cellsEdges_of r1 c (by omega) (by omega) (by simp [cellEdges]))
    · exact Or.inl (mem_cellsEdges_of r c (by omega) (by omega) (by simp [cellEdges]))
    · by_cases h : r + 1 < Rk + 1
      · exact Or.inl (mem_cellsEdges_of (r+1) c (by omega) (by omega) (by simp [cellEdges]))
      · have hr1 : r = Rk := by omega
        subst hr1
        exact Or.inr (mem_walls_rowLast c (by omega) (by simp [wallEdges, hR1]))
    · rcases c with _ | c1
      · exact Or.inr (mem_walls_col0 r (by omega) (by simp [wallEdges]))
      · exact Or.inl (mem_cellsEdges_of r c1 (by omega) (by omega) (by simp [cellEdges]))
    · rcases r with _ | r1
      · exact Or.inr (mem_walls_row0 c (by omega) (by simp [wallEdges]))
      · exact Or.inl (mem_cellsEdges_of r1 c (by omega) (by omega) (by simp [cellEdges]))
    · by_cases h : c + 1 < Ck + 1
      · exact Or.inl (mem_cellsEdges_of r (c+1) (by omega) (by omega) (by simp [cellEdges]))
      · have hc1 : c = Ck := by omega
        subst hc1
        exact Or.inr (mem_walls_colLast r (by omega) (by simp [wallEdges, hC1]))
    · exact Or.inl (mem_cellsEdges_of r c (by omega) (by omega) (by simp [cellEdges]))
  · simp only [wallsEdges, List.mem_append] at he
    rcases he with ((h | h) | h) | h
    · rw [mem_col0Walls] at h
      obtain ⟨r, hr, h⟩ := h
      rw [hR1] at hr
      simp only [wallEdges, List.mem_cons, List.not_mem_nil, or_false] at h
      rcases h with rfl | rfl | rfl | rfl <;> rw [Prod.swap_prod_mk]
      · exact Or.inl (mem_cellsEdges_of r 0 (by omega) (by omega) (by simp [cellEdges]))
      · rcases r with _ | r1
        · exact Or.inr (mem_walls_row0 0 (by omega) (by simp [wallEdges]))
        · exact Or.inr (mem_walls_col0 r1 (by omega) (by simp [wallEdges]))
      · exact Or.inl (mem_cellsEdges_of r 0 (by omega) (by omega) (by simp [cellEdges]))
      · by_cases hb : r + 1 < Rk + 1
        · exact Or.inr (mem_walls_col0 (r+1) (by omega) (by simp [wallEdges]))
        · have hr1 : r = Rk := by omega
          subst hr1
          exact Or.inr (mem_walls_rowLast 0 (by omega) (by simp [wallEdges, hR1]))
    · rw [mem_row0Walls] at h
      obtain ⟨c, hc, h⟩ := h
      rw [hC1] at hc
      simp only [wallEdges, List.mem_cons, List.not_mem_nil, or_false] at h
      rcases h with rfl | rfl | rfl | rfl <;> rw [Prod.swap_prod_mk]
      · exact Or.inl (mem_cellsEdges_of 0 c (by omega) (by omega) (by simp [cellEdges]))
      · by_cases hb : c + 1 < Ck + 1
        · exact Or.inr (mem_walls_row0 (c+1) (by omega) (by simp [wallEdges]))
        · have hc1 : c = Ck := by omega
          subst hc1
          exact Or.inr (mem_walls_colLast 0 (by omega) (by simp [wallEdges, hC1]))
      · exact Or.inl (mem_cellsEdges_of 0 c (by omega) (by omega) (by simp [cellEdges]))
      · rcases c with _ | c1
        · exact Or.inr (mem_walls_col0 0 (by omega) (by simp [wallEdges]))
        · exact Or.inr (mem_walls_row0 c1 (by omega) (by simp [wallEdges]))
    · rw [mem_rowLastWalls] at h
      obtain ⟨c, hc, h⟩ := h
      rw [hC1] at hc
      simp only [wallEdges, List.mem_cons, List.not_mem_nil, or_false] at h
      rcases h with rfl | rfl | rfl | rfl <;> rw [Prod.swap_prod_mk]
      · exact Or.inl (mem_cellsEdges_of Rk c (by omega) (by omega)
          (by simp [cellEdges, hR1]))
      · rcases c with _ | c1
        · exact Or.inr (mem_walls_col0 Rk (by omega) (by simp [wallEdges, hR1]))
        · exact Or.inr (mem_walls_rowLast c1 (by omega) (by simp [wallEdges]))
      · exact Or.inl (mem_cellsEdges_of Rk c (by omega) (by omega)
          (by simp [cellEdges, hR1]))
      · by_cases hb : c + 1 < Ck + 1
        · exact Or.inr (mem_walls_rowLast (c+1) (by omega) (by simp [wallEdges]))
        · have hc1 : c = Ck := by omega
          subst hc1
          exact Or.inr (mem_walls_colLast Rk (by omega) (by simp [wallEdges, hR1, hC1]))
    · rw [mem_colLastWalls] at h
      obtain ⟨r, hr, h⟩ := h
      rw [hR1] at hr
      simp only [wallEdges, List.mem_cons, List.not_mem_nil, or_false] at h
      rcases h with rfl | rfl | rfl | rfl <;> rw [Prod.swap_prod_mk]
      · exact Or.inl (mem_cellsEdges_of r Ck (by omega) (by omega)
          (by simp [cellEdges, hC1]))
      · by_cases hb : r + 1 < Rk + 1
        · exact Or.inr (mem_walls_colLast (r+1) (by omega) (by simp [wallEdges]))
        · have hr1 : r = Rk := by omega
          subst hr1
          exact Or.inr (mem_walls_rowLast Ck (by omega) (by simp [wallEdges, hR1, hC1]))
      · exact Or.inl (mem_cellsEdges_of r Ck (by omega) (by omega)
          (by simp [cellEdges, hC1]))
      · rcases r with _ | r1
        · exact Or.inr (mem_walls_row0 Ck (by omega) (by simp [wallEdges, hC1]))
        · exact Or.inr (mem_walls_colLast r1 (by omega) (by simp [wallEdges]))

/-- A mesh vertex is in range for an `R × C` grid. -/
def VValid (R C : Nat) : MVert → Prop
  | .top r c => r < R ∧ c < C
  | .base r c => r < R ∧ c < C

/-- Every directed edge of the mesh joins two distinct in-range vertices. -/
lemma meshEdges_valid (R C : Nat) (hR : 2 ≤ R) (hC : 2 ≤ C) :
    ∀ e ∈ meshEdges (buildFacesM R C),
      VValid R C e.1 ∧ VValid R C e.2 ∧ e.1 ≠ e.2 := by
  intro e he
  rw [meshEdges_decomp, List.mem_append] at he
  rcases he with he | he
  · obtain ⟨r, c, hr, hc, -, hmem⟩ := mem_cellsEdges_sel he
    simp only [cellEdges, List.mem_cons, List.not_mem_nil, or_false] at hmem
    rcases hmem with rfl | rfl | rfl | rfl | rfl | rfl | rfl | rfl | rfl | rfl | rfl | rfl <;>
      refine ⟨by simp only [VValid]; omega, by simp only [VValid]; omega, ?_⟩ <;>
      simp <;> omega
  · simp only [wallsEdges, List.mem_append] at he
    rcases he with ((h | h) | h) | h <;>
      [rw [mem_col0Walls] at h; rw [mem_row0Walls] at h;
       rw [mem_rowLastWalls] at h; rw [mem_colLastWalls] at h] <;>
      obtain ⟨i, hi, h⟩ := h <;>
      simp only [wallEdges, List.mem_cons, List.not_mem_nil, or_false] at h <;>
      rcases h with rfl | rfl | rfl | rfl <;>
      refine ⟨by simp only [VValid]; omega, by simp only [VValid]; omega, ?_⟩ <;>
      simp <;> omega

/-- A mesh: an ordered vertex list (index is the identity used by faces) and
a face list of vertex-index tuples. -/
structure Mesh where
  vertices : List (ℚ × ℚ × ℚ)
  faces : List (List Nat)
deriving DecidableEq

/-- Row-major vertex numbering: top vertices first (`r * C + c`), then the
mirrored base vertices (`R * C + r * C + c`). -/
def vertIndex (R C : Nat) : MVert → Nat
  | .top r c => r * C + c
  | .base r c => R * C + (r * C + c)

/-- Modelled from the spec: the top-surface vertex of grid point `(r, c)` —
its position scaled into the `[0, widthMm] × [0, heightMm]` plane at the
grid point's height. -/
def topVertex (hf : HeightData) (r c : Nat) : ℚ × ℚ × ℚ :=
  (hf.width_mm * (c : ℚ) / ((hf.heights.cols : ℚ) - 1),
   hf.height_mm * (r : ℚ) / ((hf.heights.rows : ℚ) - 1),
   hf.heights.data.getD (r * hf.heights.cols + c) 0)

/-- Modelled from the spec: the mirrored base vertex of grid point `(r, c)`
at `z = 0`. -/
def baseVertex (hf : HeightData) (r c : Nat) : ℚ × ℚ × ℚ :=
  (hf.width_mm * (c : ℚ) / ((hf.heights.cols : ℚ) - 1),
   hf.height_mm * (r : ℚ) / ((hf.heights.rows : ℚ) - 1), 0)

/-- Modelled from the spec: one vertex per grid point on the top surface
followed by the mirrored base vertices, in the order named by
`vertIndex`. -/
def buildVertices (hf : HeightData) : List (ℚ × ℚ × ℚ) :=
  ((List.range hf.heights.rows).flatMap fun r =>
    (List.range hf.heights.cols).map fun c => topVertex hf r c) ++
  ((List.range hf.heights.rows).flatMap fun r =>
    (List.range hf.heights.cols).map fun c => baseVertex hf r c)

/-- The face list with abstract vertices replaced by their indices. -/
def buildFaces (R C : Nat) : List (List Nat) :=
  (buildFacesM R C).map (List.map (vertIndex R C))

/-- Modelled from the spec: `build(heightField) -> Mesh`, rejecting with a
`GeometryError` any grid with a dimension below 2 (a surface needs at least
a 2×2 grid). -/
def build (hf : HeightData) : Except String Mesh :=
  if hf.heights.rows < 2 ∨ hf.heights.cols < 2 then
    .error "GeometryError: height grid must be at least 2x2"
  else
    .ok { vertices := buildVertices hf,
          faces := buildFaces hf.heights.rows hf.heights.cols }

lemma faceEdges_map {α β : Type} (f : α → β) (l : List α) :
    faceEdges (l.map f) = (faceEdges l).map (Prod.map f f) := by
  cases l with
  | nil => rfl
  | cons x xs =>
    show ((x :: xs).map f).zip (xs.map f ++ [f x]) = _
    have h1 : xs.map f ++ [f x] = (xs ++ [x]).map f := by
      rw [List.map_append]
      rfl
    rw [h1, List.zip_map]
    rfl

lemma meshEdges_map {α β : Type} (f : α → β) (faces : List (List α)) :
    meshEdges (faces.map (List.map f)) = (meshEdges faces).map (Prod.map f f) := by
  unfold meshEdges
  rw [List.flatMap_map, List.map_flatMap]
  exact congrArg _ (funext fun face => faceEdges_map f face)

/-- `r * C + c` with `c < C` determines `r` and `c`. -/
lemma enc_inj {C : Nat} (hC : 0 < C) {r c r' c' : Nat} (hc : c < C) (hc' : c' < C)
    (h : r * C + c = r' * C + c') : r = r' ∧ c = c' := by
  have hdiv : ∀ a b : Nat, b < C → (a * C + b) / C = a := by
    intro a b hb
    rw [Nat.mul_comm, Nat.mul_add_div hC, Nat.div_eq_of_lt hb]
    omega
  have hmod : ∀ a b : Nat, b < C → (a * C + b) % C = b := by
    intro a b hb
    rw [Nat.mul_comm, Nat.mul_add_mod, Nat.mod_eq_of_lt hb]
  constructor
  · rw [← hdiv r c hc, ← hdiv r' c' hc', h]
  · rw [← hmod r c hc, ← hmod r' c' hc', h]

lemma enc_lt {R C r c : Nat} (hr : r < R) (hc : c < C) : r * C + c < R * C :=
  calc r * C + c < r * C + C := by omega
  _ = (r + 1) * C := by ring
  _ ≤ R * C := Nat.mul_le_mul_right C (by omega)

/-- `vertIndex` is injective on in-range vertices. -/
lemma vertIndex_inj {R C : Nat} (hC : 0 < C) {u v : MVert}
    (hu : VValid R C u) (hv : VValid R C v)
    (h : vertIndex R C u = vertIndex R C v) : u = v := by
  rcases u with ⟨r, c⟩ | ⟨r, c⟩ <;> rcases v with ⟨r', c'⟩ | ⟨r', c'⟩ <;>
    simp only [VValid] at hu hv <;> simp only [vertIndex] at h
  · obtain ⟨h1, h2⟩ := enc_inj hC hu.2 hv.2 h
    rw [h1, h2]
  · exfalso
    have h1 : r * C + c < R * C := enc_lt hu.1 hu.2
    generalize r * C = A at h h1
    generalize R * C = B at h h1
    generalize r' * C = D at h
    omega
  · exfalso
    have h1 : r' * C + c' < R * C := enc_lt hv.1 hv.2
    generalize r' * C = A at h h1
    generalize R * C = B at h h1
    generalize r * C = D at h
    omega
  · have h2 : r * C + c = r' * C + c' := by omega
    obtain ⟨h3, h4⟩ := enc_inj hC hu.2 hv.2 h2
    rw [h3, h4]

/-- Occurrence count of an element in a list (the multiplicity of a
directed edge among the face-boundary edges). -/
def countE {α : Type} [DecidableEq α] (e : α) : List α → Nat
  | [] => 0
  | x :: xs => (if x = e then 1 else 0) + countE e xs

lemma countE_eq_zero_of_not_mem {α : Type} [DecidableEq α] {e : α} {l : List α}
    (h : e ∉ l) : countE e l = 0 := by
  induction l with
  | nil => rfl
  | cons x xs ih =>
    simp only [List.mem_cons, not_or] at h
    have hxe : ¬ x = e := fun hx => h.1 hx.symm
    simp only [countE, if_neg hxe, ih h.2]

lemma countE_eq_one_of_mem {α : Type} [DecidableEq α] {e : α} {l : List α}
    (hnd : l.Nodup) (h : e ∈ l) : countE e l = 1 := by
  induction l with
  | nil => cases h
  | cons x xs ih =>
    rw [List.nodup_cons] at hnd
    rcases List.mem_cons.mp h with rfl | h
    · show (if e = e then 1 else 0) + countE e xs = 1
      rw [if_pos rfl, countE_eq_zero_of_not_mem hnd.1]
    · have hx : ¬ x = e := fun hx => hnd.1 (hx ▸ h)
      show (if x = e then 1 else 0) + countE e xs = 1
      rw [if_neg hx, ih hnd.2 h]

lemma countE_le_one {α : Type} [DecidableEq α] (e : α) {l : List α}
    (hnd : l.Nodup) : countE e l ≤ 1 := by
  by_cases h : e ∈ l
  · exact le_of_eq (countE_eq_one_of_mem hnd h)
  · rw [countE_eq_zero_of_not_mem h]
    omega

/-- Combinatorial watertightness of a face list over vertex indices: every
directed edge appears at most once; every directed edge is matched by its
reverse (consistent opposite windings); and every directed edge present
joins two distinct vertices, its undirected edge lying in exactly two face
slots. -/
def Watertight (faces : List (List Nat)) : Prop :=
  ∀ a b : Nat,
    countE (a, b) (meshEdges faces) ≤ 1 ∧
    countE (a, b) (meshEdges faces) = countE (b, a) (meshEdges faces) ∧
    ((a, b) ∈ meshEdges faces →
      a ≠ b ∧ countE (a, b) (meshEdges faces) + countE (b, a) (meshEdges faces) = 2)

lemma buildFaces_edges (R C : Nat) :
    meshEdges (buildFaces R C) =
      (meshEdges (buildFacesM R C)).map
        (Prod.map (vertIndex R C) (vertIndex R C)) :=
  meshEdges_map _ _

lemma buildFaces_edges_nodup (R C : Nat) (hR : 2 ≤ R) (hC : 2 ≤ C) :
    (meshEdges (buildFaces R C)).Nodup := by
  rw [buildFaces_edges]
  refine List.Nodup.map_on ?_ (meshEdges_nodup R C hR hC)
  intro x hx y hy hxy
  obtain ⟨hx1, hx2, -⟩ := meshEdges_valid R C hR hC x hx
  obtain ⟨hy1, hy2, -⟩ := meshEdges_valid R C hR hC y hy
  rcases x with ⟨x1, x2⟩
  rcases y with ⟨y1, y2⟩
  simp only [Prod.map, Prod.mk.injEq] at hxy
  have e1 := vertIndex_inj (by omega) hx1 hy1 hxy.1
  have e2 := vertIndex_inj (by omega) hx2 hy2 hxy.2
  exact Prod.ext e1 e2

lemma swap_mem_buildFaces (R C : Nat) (hR : 2 ≤ R) (hC : 2 ≤ C) :
    ∀ e ∈ meshEdges (buildFaces R C),
      Prod.swap e ∈ meshEdges (buildFaces R C) := by
  rw [buildFaces_edges]
  intro e he
  rw [List.mem_map] at he
  obtain ⟨x, hx, rfl⟩ := he
  rw [List.mem_map]
  refine ⟨Prod.swap x, swap_mem_meshEdges R C hR hC x hx, ?_⟩
  rcases x with ⟨u, v⟩
  rfl

lemma buildFaces_watertight (R C : Nat) (hR : 2 ≤ R) (hC : 2 ≤ C) :
    Watertight (buildFaces R C) := by
  intro a b
  have hnd := buildFaces_edges_nodup R C hR hC
  have hswap := swap_mem_buildFaces R C hR hC
  by_cases hmem : (a, b) ∈ meshEdges (buildFaces R C)
  · have hsw : (b, a) ∈ meshEdges (buildFaces R C) := by
      have := hswap (a, b) hmem
      simpa using this
    have h1 := countE_eq_one_of_mem hnd hmem
    have h2 := countE_eq_one_of_mem hnd hsw
    refine ⟨by rw [h1], by rw [h1, h2], fun _ => ⟨?_, by rw [h1, h2]⟩⟩
    rw [buildFaces_edges, List.mem_map] at hmem
    obtain ⟨⟨u, v⟩, hx, hab⟩ := hmem
    obtain ⟨hu, hv, huv⟩ := meshEdges_valid R C hR hC (u, v) hx
    obtain ⟨hia, hib⟩ : vertIndex R C u = a ∧ vertIndex R C v = b := by
      simpa [Prod.map] using hab
    intro heq
    exact huv (vertIndex_inj (by omega) hu hv (by rw [hia, hib, heq]))
  · have hsw : (b, a) ∉ meshEdges (buildFaces R C) := by
      intro hco
      exact hmem (by simpa using hswap (b, a) hco)
    rw [countE_eq_zero_of_not_mem hmem, countE_eq_zero_of_not_mem hsw]
    exact ⟨by omega, rfl, fun hco => absurd hco hmem⟩

/-- C2: Modelled from the spec (the Surface Mesh Builder of
`pipeline/scad_generator.py` is absent from the source tree): for every
height field with `rows ≥ 2` and `cols ≥ 2`, `build` succeeds and the
produced face list is watertight — every directed edge appears exactly once
together with its reverse (consistent opposite windings of adjacent faces),
so every undirected edge of the mesh is shared by exactly two faces. -/
theorem C2_mesh_watertight (hf : HeightData) (hR : 2 ≤ hf.heights.rows)
    (hC : 2 ≤ hf.heights.cols) :
    build hf = .ok { vertices := buildVertices hf,
                     faces := buildFaces hf.heights.rows hf.heights.cols } ∧
    Watertight (buildFaces hf.heights.rows hf.heights.cols) := by
  constructor
  · unfold build
    rw [if_neg (by omega)]
  · exact buildFaces_watertight _ _ hR hC

/-- A 2×2 height field used by the C2 witness. -/
def hf2 : HeightData := ⟨⟨2, 2, [2, 3, 4, 5]⟩, 100, 100⟩

/-- Witness for C2 at a concrete 2×2 height field. -/
theorem C2_witness :
    build hf2 = .ok { vertices := buildVertices hf2,
                      faces := buildFaces hf2.heights.rows hf2.heights.cols } ∧
    Watertight (buildFaces hf2.heights.rows hf2.heights.cols) :=
  C2_mesh_watertight hf2 (by decide) (by decide)

end ImageToScad
